import Mathlib

/-
  Verification development for the calendar-reminder core of the repository:
  the data model (src/models.py), the dispatch scheduler
  (src/scheduler.py, ReminderScheduler.check_and_send_reminders and
  get_pending_notifications) and the lifecycle operations
  (src/server.py, create_reminder / update_reminder / delete_reminder).

  Modelling conventions:
  * Times (datetime values) are integers counting minutes, so
    "eventStart - timedelta(minutes=m)" becomes subtraction of integers.
  * ISO-format serialization of a datetime is modelled as the identity on the
    integer value (isoformat and fromisoformat are mutually inverse).
  * The pydantic EmailStr validator is an external library check; it is
    modelled as an explicit boolean predicate parameter email_str_ok.
  * Fallible Python code (raised exceptions) is modelled with Option/Except.
-/

set_option linter.unusedVariables false

namespace ReminderApp

/-- Status of a reminder (src/models.py, class ReminderStatus). -/
inductive ReminderStatus where
  | pending
  | notified
  | completed
  | cancelled
deriving DecidableEq, Repr

/-- String value of a status, as written to JSON (the str-enum value). -/
def ReminderStatus.value : ReminderStatus → String
  | .pending => "pending"
  | .notified => "notified"
  | .completed => "completed"
  | .cancelled => "cancelled"

/-- Parsing a status string (a ReminderStatus constructor call in Python);
an unrecognised string raises ValueError, modelled as none. -/
def ReminderStatus.ofString : String → Option ReminderStatus
  | "pending" => some .pending
  | "notified" => some .notified
  | "completed" => some .completed
  | "cancelled" => some .cancelled
  | _ => none

/-- Settings for when to send notifications (src/models.py,
class NotificationSettings); minutes_before defaults to [60, 1440]. -/
structure NotificationSettings where
  minutes_before : List Int
  email_enabled : Bool
deriving DecidableEq, Repr

/-- Details of a calendar event (src/models.py, class EventDetails).
The record itself carries no invariant; the pydantic validators run at
construction time and are modelled by mkEventDetails below. -/
structure EventDetails where
  title : String
  datetime : Int
  attendees : List String
  location : Option String
  description : Option String
deriving DecidableEq, Repr

/-- Validated construction of EventDetails: pydantic checks the title is
non-empty (min_length=1), every attendee passes the EmailStr validator
(modelled by the email_str_ok parameter), and validate_future_datetime
rejects a datetime strictly before now. A failed validation raises in
Python, modelled as none. -/
def mkEventDetails (email_str_ok : String → Bool) (now : Int) (title : String)
    (datetime : Int) (attendees : List String)
    (location description : Option String) : Option EventDetails :=
  if title = "" then none
  else if attendees.all email_str_ok = false then none
  else if datetime < now then none
  else some { title := title, datetime := datetime, attendees := attendees,
              location := location, description := description }

/-- Complete reminder record (src/models.py, class Reminder). -/
structure Reminder where
  id : String
  event : EventDetails
  notification_settings : NotificationSettings
  status : ReminderStatus
  calendar_synced : Bool
  google_event_id : Option String
  created_at : Int
  updated_at : Int
deriving DecidableEq, Repr

/-- Log entry for one dispatched notification (src/models.py,
class NotificationLog). -/
structure NotificationLog where
  reminder_id : String
  notification_time : Int
  minutes_before : Int
  sent_at : Int
  success : Bool
  error_message : Option String
deriving DecidableEq, Repr

/-- Shape of one serialized reminder record as written by Reminder.to_dict:
same fields, with the status rendered as its string value and datetimes as
their (modelled) ISO value. -/
structure ReminderDict where
  id : String
  event : EventDetails
  notification_settings : NotificationSettings
  status : String
  calendar_synced : Bool
  google_event_id : Option String
  created_at : Int
  updated_at : Int
deriving DecidableEq, Repr

/-- Serialization of a reminder (src/models.py, Reminder.to_dict). -/
def Reminder.to_dict (r : Reminder) : ReminderDict :=
  { id := r.id
    event := { title := r.event.title, datetime := r.event.datetime,
               attendees := r.event.attendees, location := r.event.location,
               description := r.event.description }
    notification_settings :=
      { minutes_before := r.notification_settings.minutes_before,
        email_enabled := r.notification_settings.email_enabled }
    status := r.status.value
    calendar_synced := r.calendar_synced
    google_event_id := r.google_event_id
    created_at := r.created_at
    updated_at := r.updated_at }

/-- Deserialization (src/models.py, Reminder.from_dict). Constructing the
nested EventDetails re-runs the pydantic validators (non-empty title,
EmailStr attendees, and datetime not before the current clock), and an
unknown status string raises; both failure modes are modelled as none. -/
def Reminder.from_dict (email_str_ok : String → Bool) (now : Int)
    (d : ReminderDict) : Option Reminder :=
  match mkEventDetails email_str_ok now d.event.title d.event.datetime
      d.event.attendees d.event.location d.event.description,
      ReminderStatus.ofString d.status with
  | some ev, some st =>
    some { id := d.id, event := ev,
           notification_settings := d.notification_settings, status := st,
           calendar_synced := d.calendar_synced,
           google_event_id := d.google_event_id,
           created_at := d.created_at, updated_at := d.updated_at }
  | _, _ => none

/-- Saving a whole reminder map (ReminderScheduler._save_reminders /
server._save_reminders): each record is serialized with to_dict; the map is
an insertion-ordered association list, as a Python dict is. -/
def saveAll (R : List (String × Reminder)) : List (String × ReminderDict) :=
  R.map (fun p => (p.1, p.2.to_dict))

/-- Loading a whole reminder map (ReminderScheduler._load_reminders /
server._load_reminders): each record is parsed with from_dict; a validation
error raised for any single record aborts the whole load (only
FileNotFoundError and JSONDecodeError are caught by the source). -/
def loadAll (email_str_ok : String → Bool) (now : Int) :
    List (String × ReminderDict) → Option (List (String × Reminder))
  | [] => some []
  | (k, d) :: rest =>
    match Reminder.from_dict email_str_ok now d,
        loadAll email_str_ok now rest with
    | some r, some rs => some ((k, r) :: rs)
    | _, _ => none

/-- A reminder map in memory: an insertion-ordered association list keyed by
reminder ID, as a Python dict is. -/
abbrev Store := List (String × Reminder)

/-- The notification ledger: an insertion-ordered association list keyed by
the string "{reminderID}_{offsetMinutes}". -/
abbrev Ledger := List (String × NotificationLog)

/-- Lookup of a reminder by ID (reminders[reminder_id]). -/
def lookupStore (s : Store) (k : String) : Option Reminder :=
  (s.find? (fun p => p.1 == k)).map (fun p => p.2)

/-- Dict assignment reminders[k] = r when the key is already present. -/
def setStore (s : Store) (k : String) (r : Reminder) : Store :=
  s.map (fun p => if p.1 == k then (k, r) else p)

/-- Dict deletion del reminders[k]. -/
def removeStore (s : Store) (k : String) : Store :=
  s.filter (fun p => !(p.1 == k))

/-- Dict assignment reminders[k] = r: replaces the value if the key exists,
otherwise appends in insertion order. -/
def insertStore (s : Store) (k : String) (r : Reminder) : Store :=
  if s.any (fun p => p.1 == k) then setStore s k r else s ++ [(k, r)]

/-- Well-formedness of a store: every record is keyed by its own ID. Every
store the application writes has this shape (create and the tick key each
record by reminder.id, and saved files keep those keys). -/
def StoreWF (s : Store) : Prop := ∀ p ∈ s, p.2.id = p.1

/-- Ledger key for one (reminder, offset) pair
(the f-string "{reminder.id}_{minutes_before}" in scheduler.py). -/
def logKey (reminder_id : String) (minutes_before : Int) : String :=
  reminder_id ++ "_" ++ toString minutes_before

/-- Membership test log_key in notification_log. -/
def ledgerContains (log : Ledger) (key : String) : Bool :=
  log.any (fun p => p.1 == key)

/-- Number of ledger entries carrying a given key. -/
def countKey (log : Ledger) (key : String) : Nat :=
  log.countP (fun p => p.1 == key)

/-- Python's str.lower(), modelled character-wise (status strings are pure
ASCII). -/
def pyLower (s : String) : String := ⟨s.data.map Char.toLower⟩

/-- Python's "notification_minutes or [60, 1440]": both None and the empty
list are falsy, so both fall back to the default. -/
def pyListOr (l : Option (List Int)) (d : List Int) : List Int :=
  match l with
  | none => d
  | some xs => if xs.isEmpty then d else xs

/-- The create_reminder tool (src/server.py). The ISO datetime string is
modelled by its parsed value (a parse failure is one more way to land in the
none branch, like any validation error); uuid4 generation is modelled by the
explicit freshId argument. "attendees or []" maps None and [] to []. -/
def create_reminder (eok : String → Bool) (now : Int) (freshId : String)
    (title : String) (event_datetime : Int) (attendees : Option (List String))
    (location description : Option String)
    (notification_minutes : Option (List Int)) (store : Store) :
    Option (Reminder × Store) :=
  match mkEventDetails eok now title event_datetime (attendees.getD [])
      location description with
  | none => none
  | some ev =>
    let ns : NotificationSettings :=
      { minutes_before := pyListOr notification_minutes [60, 1440],
        email_enabled := true }
    let r : Reminder :=
      { id := freshId, event := ev, notification_settings := ns,
        status := .pending, calendar_synced := false, google_event_id := none,
        created_at := now, updated_at := now }
    some (r, insertStore store r.id r)

/-- Optional field arguments of the update_reminder tool. A none means the
argument was not supplied; datetime_str is modelled by its parsed value. -/
structure UpdateFields where
  title : Option String
  event_datetime : Option Int
  attendees : Option (List String)
  location : Option String
  description : Option String
  status : Option String
deriving DecidableEq, Repr

/-- Outcome of update_reminder, as reported in its JSON reply. -/
inductive UpdateOutcome where
  | notFound
  | invalidStatus
  | okWarning (msg : Option String)
  | ok
deriving DecidableEq, Repr

/-- Tail of update_reminder after the field edits: refresh updated_at, save
the store, then attempt the external calendar update when the reminder is
synced, reporting a non-fatal warning on failure. -/
def updateFinish (extUpdate : Reminder → Bool × Option String) (now : Int)
    (store : Store) (reminder_id : String) (r : Reminder) :
    UpdateOutcome × Store :=
  let r2 := { r with updated_at := now }
  let store2 := setStore store reminder_id r2
  if r2.calendar_synced then
    match extUpdate r2 with
    | (false, e) => (.okWarning e, store2)
    | (true, _) => (.ok, store2)
  else (.ok, store2)

/-- The update_reminder tool (src/server.py). Supplied fields overwrite the
record one by one; an empty title or status string is falsy in Python and
skipped; the status string is lowercased and parsed with no transition
check, and an unparseable status raises ValueError before anything is saved,
leaving the store untouched. -/
def update_reminder (extUpdate : Reminder → Bool × Option String) (now : Int)
    (store : Store) (reminder_id : String) (f : UpdateFields) :
    UpdateOutcome × Store :=
  match lookupStore store reminder_id with
  | none => (.notFound, store)
  | some r0 =>
    let r1 := match f.title with
      | some t => if t = "" then r0
                  else { r0 with event := { r0.event with title := t } }
      | none => r0
    let r2 := match f.event_datetime with
      | some d => { r1 with event := { r1.event with datetime := d } }
      | none => r1
    let r3 := match f.attendees with
      | some a => { r2 with event := { r2.event with attendees := a } }
      | none => r2
    let r4 := match f.location with
      | some l => { r3 with event := { r3.event with location := some l } }
      | none => r3
    let r5 := match f.description with
      | some d => { r4 with event := { r4.event with description := some d } }
      | none => r4
    match f.status with
    | some s =>
      if s = "" then updateFinish extUpdate now store reminder_id r5
      else
        match ReminderStatus.ofString (pyLower s) with
        | none => (.invalidStatus, store)
        | some st =>
          updateFinish extUpdate now store reminder_id { r5 with status := st }
    | none => updateFinish extUpdate now store reminder_id r5

/-- Outcome of delete_reminder, as reported in its JSON reply. -/
inductive DeleteOutcome where
  | notFound
  | extDeleteFailed (msg : Option String)
  | deleted
deriving DecidableEq, Repr

/-- The delete_reminder tool (src/server.py). The external delete runs only
when the reminder is calendar-synced AND carries a truthy (non-empty)
google_event_id; if that external delete reports failure the operation stops
with an error and the store is left untouched. -/
def delete_reminder (extDelete : String → Bool × Option String) (store : Store)
    (reminder_id : String) : DeleteOutcome × Store :=
  match lookupStore store reminder_id with
  | none => (.notFound, store)
  | some r =>
    match r.calendar_synced, r.google_event_id with
    | true, some gid =>
      if gid = "" then (.deleted, removeStore store reminder_id)
      else
        match extDelete gid with
        | (true, _) => (.deleted, removeStore store reminder_id)
        | (false, e) => (.extDeleteFailed e, store)
    | _, _ => (.deleted, removeStore store reminder_id)

/-- Recipient set for one send: the configured sender (when truthy) plus the
event's attendees, de-duplicated. Python's list(set(..)) leaves the order
unspecified; dedup (keeping first occurrences) picks one representative
order, which no property below depends on. -/
def recipientsFor (email_from : Option String) (r : Reminder) : List String :=
  ((match email_from with
    | some s => if s = "" then [] else [s]
    | none => []) ++ r.event.attendees).dedup

/-- The three skip-checks at the top of the per-reminder loop of
check_and_send_reminders: status must be pending or notified, the event must
not lie strictly in the past, and the email channel must be enabled. -/
def reminderEligible (now : Int) (r : Reminder) : Bool :=
  if ¬ (r.status = .pending ∨ r.status = .notified) then false
  else if r.event.datetime < now then false
  else if r.notification_settings.email_enabled = false then false
  else true

/-- The Notification Evaluator as a pure function: the due-but-undelivered
offsets of one reminder, read off the inline conditions of
check_and_send_reminders (scheduler.py lines 63-90). -/
def dueOffsets (now : Int) (r : Reminder) (log : Ledger) : List Int :=
  if reminderEligible now r then
    r.notification_settings.minutes_before.filter
      (fun m => decide (now ≥ r.event.datetime - m) &&
        !(ledgerContains log (logKey r.id m)))
  else []

/-- The external send capability. Python distinguishes a returned
(success, error) pair from a raised exception; Except.error models the
raise (the repository's EmailService.send_reminder_notification catches its
own exceptions and always returns a pair). -/
abbrev SendFn := Reminder → List String → Int → Except Unit (Bool × Option String)

/-- Inner loop of check_and_send_reminders over the configured offsets of a
single reminder, threading the in-memory reminder, ledger, attempted-send
list and success count. A raised exception escapes with the attempts made so
far (the raising call included, since the capability was invoked). -/
def processOffsets (send : SendFn) (email_from : Option String) (now : Int) :
    List Int → Reminder → Ledger → List (String × Int) → Nat →
    Except (List (String × Int)) (Reminder × Ledger × List (String × Int) × Nat)
  | [], r, log, sends, cnt => .ok (r, log, sends, cnt)
  | m :: ms, r, log, sends, cnt =>
    let notification_time := r.event.datetime - m
    if now ≥ notification_time then
      if ledgerContains log (logKey r.id m) then
        processOffsets send email_from now ms r log sends cnt
      else
        match send r (recipientsFor email_from r) m with
        | .error _ => .error (sends ++ [(r.id, m)])
        | .ok (success, err) =>
          let entry : NotificationLog :=
            { reminder_id := r.id, notification_time := notification_time,
              minutes_before := m, sent_at := now, success := success,
              error_message := err }
          let log2 := log ++ [(logKey r.id m, entry)]
          let sends2 := sends ++ [(r.id, m)]
          if success then
            let r2 := if r.status = .pending then { r with status := .notified }
                      else r
            processOffsets send email_from now ms r2 log2 sends2 (cnt + 1)
          else
            processOffsets send email_from now ms r log2 sends2 cnt
    else processOffsets send email_from now ms r log sends cnt

/-- Outer loop of check_and_send_reminders over all reminders of the store,
in insertion order. -/
def processAll (send : SendFn) (email_from : Option String) (now : Int) :
    Store → Ledger → List (String × Int) → Nat →
    Except (List (String × Int)) (Store × Ledger × List (String × Int) × Nat)
  | [], log, sends, cnt => .ok ([], log, sends, cnt)
  | (k, r) :: rest, log, sends, cnt =>
    if reminderEligible now r then
      match processOffsets send email_from now
          r.notification_settings.minutes_before r log sends cnt with
      | .error s2 => .error s2
      | .ok (r2, log2, sends2, cnt2) =>
        match processAll send email_from now rest log2 sends2 cnt2 with
        | .error s3 => .error s3
        | .ok (rest2, log3, sends3, cnt3) =>
          .ok ((k, r2) :: rest2, log3, sends3, cnt3)
    else
      match processAll send email_from now rest log sends cnt with
      | .error s3 => .error s3
      | .ok (rest2, log3, sends3, cnt3) => .ok ((k, r) :: rest2, log3, sends3, cnt3)

/-- Observable outcome of one dispatch tick: the persisted file contents
(store and ledger), the capability invocations made, the success count, and
whether each file was rewritten. -/
structure TickResult where
  store : Store
  ledger : Ledger
  sends : List (String × Int)
  sent_count : Nat
  store_saved : Bool
  ledger_saved : Bool
deriving DecidableEq, Repr

/-- One dispatch tick (ReminderScheduler.check_and_send_reminders): process
every reminder, then save the store only when sent_count > 0 and save the
ledger unconditionally. An exception raised mid-tick is swallowed by the
surrounding try/except, so neither file is rewritten and the on-disk state
is unchanged. -/
def check_and_send_reminders (send : SendFn) (email_from : Option String)
    (now : Int) (store : Store) (ledger : Ledger) : TickResult :=
  match processAll send email_from now store ledger [] 0 with
  | .error s =>
    { store := store, ledger := ledger, sends := s, sent_count := 0,
      store_saved := false, ledger_saved := false }
  | .ok (store2, log2, sends2, cnt2) =>
    { store := if cnt2 > 0 then store2 else store, ledger := log2,
      sends := sends2, sent_count := cnt2,
      store_saved := decide (cnt2 > 0), ledger_saved := true }

/-- One row of the get_pending_notifications report. -/
structure PendingEntry where
  reminder_id : String
  title : String
  event_datetime : Int
  notification_time : Int
  minutes_before : Int
  is_due : Bool
deriving DecidableEq, Repr

/-- The dict appended by get_pending_notifications for one offset. -/
def pendingEntryFor (now : Int) (r : Reminder) (m : Int) : PendingEntry :=
  { reminder_id := r.id, title := r.event.title,
    event_datetime := r.event.datetime,
    notification_time := r.event.datetime - m, minutes_before := m,
    is_due := decide (now ≥ r.event.datetime - m) }

/-- Rows contributed by one reminder in get_pending_notifications: note the
source checks status and past-ness but not email_enabled, and appends every
offset with no ledger entry whether or not it is due yet. -/
def pendingForReminder (now : Int) (log : Ledger) (r : Reminder) :
    List PendingEntry :=
  if ¬ (r.status = .pending ∨ r.status = .notified) then []
  else if r.event.datetime < now then []
  else
    (r.notification_settings.minutes_before.filter
      (fun m => !(ledgerContains log (logKey r.id m)))).map (pendingEntryFor now r)

/-- Stable insertion into a list sorted by notification_time. -/
def insertByTime (e : PendingEntry) : List PendingEntry → List PendingEntry
  | [] => [e]
  | x :: xs =>
    if e.notification_time ≤ x.notification_time then e :: x :: xs
    else x :: insertByTime e xs

/-- Stable sort by notification_time, modelling Python's
sorted(pending, key=...): sorting ISO strings of equal-format datetimes
orders them chronologically. -/
def sortByTime : List PendingEntry → List PendingEntry
  | [] => []
  | x :: xs => insertByTime x (sortByTime xs)

/-- The read-only query ReminderScheduler.get_pending_notifications. -/
def get_pending_notifications (now : Int) (store : Store) (log : Ledger) :
    List PendingEntry :=
  sortByTime ((store.map (fun p => pendingForReminder now log p.2)).flatten)

/-- Sample reminder: pending, event at time 100, one 60-minute offset. -/
def sampleReminder : Reminder :=
  { id := "r1",
    event := { title := "standup", datetime := 100, attendees := [],
               location := none, description := none },
    notification_settings := { minutes_before := [60], email_enabled := true },
    status := .pending, calendar_synced := false, google_event_id := none,
    created_at := 0, updated_at := 0 }

/-- Sample reminder already in the completed state. -/
def completedReminder : Reminder := { sampleReminder with status := .completed }

/-- Sample reminder already in the notified state, event at time 130. -/
def notifiedReminder : Reminder :=
  { sampleReminder with
    status := .notified
    event := { sampleReminder.event with datetime := 130 } }

/-- Sample reminder with the email channel disabled. -/
def disabledReminder : Reminder :=
  { sampleReminder with
    notification_settings := { minutes_before := [60], email_enabled := false } }

/-- Sample reminder flagged calendar-synced but with no recorded external
event ID. -/
def syncedNoIdReminder : Reminder :=
  { sampleReminder with calendar_synced := true }

/-- Sample reminder calendar-synced with a recorded external event ID. -/
def syncedReminder : Reminder :=
  { sampleReminder with calendar_synced := true, google_event_id := some "g1" }

/-- Two sample reminders both due for their 60-minute offset at time 50. -/
def dueReminderA : Reminder :=
  { sampleReminder with id := "a1" }

/-- Second of the two due sample reminders. -/
def dueReminderB : Reminder :=
  { sampleReminder with id := "b1" }

/-- The reminder produced by the sample create call in the C10 witness. -/
def sampleCreated : Reminder :=
  { id := "id1",
    event := { title := "t", datetime := 50, attendees := [],
               location := none, description := none },
    notification_settings := { minutes_before := [60, 1440],
                               email_enabled := true },
    status := .pending, calendar_synced := false, google_event_id := none,
    created_at := 0, updated_at := 0 }

/-- Update-fields record supplying only a status string. -/
def statusOnly (s : String) : UpdateFields :=
  { title := none, event_datetime := none, attendees := none,
    location := none, description := none, status := some s }

/-- A send capability that always returns success. -/
def sendAlwaysOk : SendFn := fun _ _ _ => .ok (true, none)

/-- A send capability that raises an exception for reminder a1 and returns
success for everything else. -/
def sendRaiseA : SendFn :=
  fun r _ _ => if r.id = "a1" then .error () else .ok (true, none)

/-- The capability never raises: every call returns a (success, error)
pair, as the repository's email service in fact does. -/
def sendTotal (send : SendFn) : Prop :=
  ∀ r rec m, ∃ v, send r rec m = Except.ok v

/-- The capability invocations recorded by a loop result, whether the loop
completed or escaped with an exception. -/
def resultSends {α : Type} :
    Except (List (String × Int)) (α × Ledger × List (String × Int) × Nat) →
      List (String × Int)
  | .error s => s
  | .ok (_, _, s, _) => s

/-- Sample ledger entry for the (r1, 60) pair. -/
def sampleLogEntry : NotificationLog :=
  { reminder_id := "r1", notification_time := 40, minutes_before := 60,
    sent_at := 50, success := true, error_message := none }

/-- Sample ledger already containing the (r1, 60) pair. -/
def sampleLedger : Ledger := [(logKey "r1" 60, sampleLogEntry)]

/-- Round trip for the status enumeration. -/
theorem ReminderStatus.ofString_value (s : ReminderStatus) :
    ReminderStatus.ofString s.value = some s := by
  cases s <;> rfl

/-- Constructing event details succeeds when the validators pass. -/
theorem mkEventDetails_of_valid (eok : String → Bool) (now : Int) (t : String)
    (dtv : Int) (att : List String) (loc desc : Option String)
    (ht : ¬ t = "") (ha : att.all eok = true) (hd : ¬ dtv < now) :
    mkEventDetails eok now t dtv att loc desc =
      some { title := t, datetime := dtv, attendees := att, location := loc,
             description := desc } := by
  unfold mkEventDetails
  rw [if_neg ht, if_neg (by simp [ha]), if_neg hd]

/-- Deserializing a serialized reminder reproduces it, provided the record
still passes the construction-time validators at load time: non-empty title,
valid attendee addresses, and an event datetime not strictly before the
loading clock. -/
theorem from_dict_to_dict (eok : String → Bool) (now : Int) (r : Reminder)
    (ht : ¬ r.event.title = "")
    (ha : r.event.attendees.all eok = true)
    (hd : now ≤ r.event.datetime) :
    Reminder.from_dict eok now r.to_dict = some r := by
  have hd2 : ¬ r.event.datetime < now := Int.not_lt.mpr hd
  obtain ⟨rid, ⟨t, dtv, att, loc, desc⟩, ⟨mb, en⟩, st, cs, ge, ca, ua⟩ := r
  have hmk := mkEventDetails_of_valid eok now t dtv att loc desc ht ha hd2
  cases st <;>
    simp_all [Reminder.from_dict, Reminder.to_dict,
      ReminderStatus.value, ReminderStatus.ofString]

/-- Ledger membership distributes over append. -/
theorem ledgerContains_append (L D : Ledger) (k : String) :
    ledgerContains (L ++ D) k = (ledgerContains L k || ledgerContains D k) := by
  simp [ledgerContains]

/-- Ledger membership is monotone under append. -/
theorem ledgerContains_mono {L : Ledger} (D : Ledger) {k : String}
    (h : ledgerContains L k = true) : ledgerContains (L ++ D) k = true := by
  simp [ledgerContains_append, h]

/-- Key counts add over append. -/
theorem countKey_append (L D : Ledger) (k : String) :
    countKey (L ++ D) k = countKey L k + countKey D k := by
  simp [countKey, List.countP_append]

/-- A key is absent exactly when its count is zero. -/
theorem ledgerContains_eq_false_iff (L : Ledger) (k : String) :
    ledgerContains L k = false ↔ countKey L k = 0 := by
  simp [ledgerContains, countKey, List.countP_eq_zero, List.any_eq_false]

/-- The eligibility check, spelled out as a proposition. -/
theorem reminderEligible_iff (now : Int) (r : Reminder) :
    reminderEligible now r = true ↔
      ((r.status = .pending ∨ r.status = .notified) ∧
        now ≤ r.event.datetime ∧
        r.notification_settings.email_enabled = true) := by
  unfold reminderEligible
  split_ifs with h1 h2 h3 <;> simp_all [Int.not_lt]

/-- C1 counterexample: a reminder whose event start time equals now fails
the "start time is in the future" precondition yet still contributes a due
offset, because the source skips only strictly past events
(reminder.event.datetime < now). -/
theorem C1_counterexample :
    ¬ ((100 : Int) < sampleReminder.event.datetime) ∧
    dueOffsets 100 sampleReminder [] = [60] := by
  decide

/-- C1 (amended): for a reminder with status pending or notified, email
channel enabled, and start time not strictly in the past (start >= now,
rather than strictly in the future), an offset O is due iff it is
configured, now >= start - O, and the ledger has no entry keyed
(reminderID, O); a reminder failing any of those three preconditions
contributes no due offsets. -/
theorem C1_evaluator_amended (now : Int) (r : Reminder) (log : Ledger) (O : Int) :
    ((r.status = .pending ∨ r.status = .notified) →
      r.notification_settings.email_enabled = true →
      now ≤ r.event.datetime →
      (O ∈ dueOffsets now r log ↔
        O ∈ r.notification_settings.minutes_before ∧
        now ≥ r.event.datetime - O ∧
        ledgerContains log (logKey r.id O) = false)) ∧
    (¬ ((r.status = .pending ∨ r.status = .notified) ∧
        now ≤ r.event.datetime ∧
        r.notification_settings.email_enabled = true) →
      dueOffsets now r log = []) := by
  constructor
  · intro h1 h2 h3
    have he : reminderEligible now r = true :=
      (reminderEligible_iff now r).mpr ⟨h1, h3, h2⟩
    simp [dueOffsets, he, List.mem_filter, and_assoc]
  · intro hno
    have he : reminderEligible now r = false := by
      rcases Bool.eq_false_or_eq_true (reminderEligible now r) with h | h
      · exact absurd ((reminderEligible_iff now r).mp h) hno
      · exact h
    simp [dueOffsets, he]

/-- C1 witness: the amended evaluator characterization instantiated at the
sample reminder, 60 minutes before its event. -/
theorem C1_witness :
    60 ∈ dueOffsets 40 sampleReminder [] ↔
      60 ∈ sampleReminder.notification_settings.minutes_before ∧
      (40 : Int) ≥ sampleReminder.event.datetime - 60 ∧
      ledgerContains [] (logKey sampleReminder.id 60) = false :=
  (C1_evaluator_amended 40 sampleReminder [] 60).1 (Or.inl rfl) rfl (by decide)

/-- C4 counterexample: a stored reminder whose event time has passed fails
the pydantic future-datetime validator when from_dict rebuilds its
EventDetails, so loading raises and the load-after-save round trip is not
the identity. -/
theorem C4_counterexample :
    loadAll (fun _ => true) 200 (saveAll [("r1", sampleReminder)]) = none ∧
    loadAll (fun _ => true) 200 (saveAll [("r1", sampleReminder)]) ≠
      some [("r1", sampleReminder)] := by
  decide

/-- C4 (amended): loading a saved reminder map reproduces it exactly —
every nested EventDetails and NotificationSettings field, the status, sync
flags and both timestamps — provided every record still passes the
construction-time validators at load time (non-empty title, valid attendee
addresses, event datetime not strictly before the loading clock); the empty
map round-trips unconditionally. -/
theorem C4_roundtrip_amended (eok : String → Bool) (now : Int)
    (R : List (String × Reminder))
    (h : ∀ p ∈ R, ¬ p.2.event.title = "" ∧
      p.2.event.attendees.all eok = true ∧ now ≤ p.2.event.datetime) :
    loadAll eok now (saveAll R) = some R := by
  induction R with
  | nil => rfl
  | cons p rest ih =>
    obtain ⟨ht, ha, hd⟩ := h p (List.mem_cons_self p rest)
    have hrest := ih (fun q hq => h q (List.mem_cons_of_mem p hq))
    obtain ⟨k, r⟩ := p
    show (match Reminder.from_dict eok now r.to_dict,
        loadAll eok now (saveAll rest) with
      | some r, some rs => some ((k, r) :: rs)
      | _, _ => none) = some ((k, r) :: rest)
    rw [from_dict_to_dict eok now r ht ha hd, hrest]

/-- C4 witness: the amended round trip instantiated on a one-record map at
a clock before the event. -/
theorem C4_witness :
    (∀ p ∈ [("r1", sampleReminder)], ¬ p.2.event.title = "" ∧
      p.2.event.attendees.all (fun _ => true) = true ∧
      (0 : Int) ≤ p.2.event.datetime) ∧
    loadAll (fun _ => true) 0 (saveAll [("r1", sampleReminder)]) =
      some [("r1", sampleReminder)] :=
  ⟨by decide, C4_roundtrip_amended (fun _ => true) 0 [("r1", sampleReminder)]
    (by decide)⟩

/-- C5 counterexample: a reminder flagged calendar_synced but with no
google_event_id is deleted locally without any external call, even under a
capability whose external delete always fails, so "local record removed
only after the external delete succeeds" is false as stated. -/
theorem C5_counterexample :
    syncedNoIdReminder.calendar_synced = true ∧
    delete_reminder (fun _ => (false, some "boom"))
      [("r1", syncedNoIdReminder)] "r1" = (.deleted, []) := by
  decide

/-- C5 (amended): deleting a reminder that is calendar-synced AND carries a
truthy external event ID is atomic: if the external delete fails the
operation reports that failure and the store is untouched; if it succeeds
the record is removed. (A reminder flagged synced without an event ID — a
state no lifecycle operation produces — skips the external call.) -/
theorem C5_delete_amended (ext : String → Bool × Option String) (store : Store)
    (rid : String) (r : Reminder) (gid : String)
    (hr : lookupStore store rid = some r) (hs : r.calendar_synced = true)
    (hg : r.google_event_id = some gid) (hne : ¬ gid = "") :
    ((ext gid).1 = false →
      delete_reminder ext store rid = (.extDeleteFailed (ext gid).2, store)) ∧
    ((ext gid).1 = true →
      delete_reminder ext store rid = (.deleted, removeStore store rid)) := by
  unfold delete_reminder
  rw [hr]
  rcases hE : ext gid with ⟨b, m⟩
  cases b <;> constructor <;> intro hb <;> simp_all [hs, hg, hne, hE]

/-- C5 witness: the amended delete contract instantiated on the synced
sample reminder with an always-failing external delete. -/
theorem C5_witness :
    lookupStore [("r1", syncedReminder)] "r1" = some syncedReminder ∧
    syncedReminder.calendar_synced = true ∧
    syncedReminder.google_event_id = some "g1" ∧
    ¬ "g1" = "" ∧
    delete_reminder (fun _ => (false, some "x")) [("r1", syncedReminder)]
      "r1" = (.extDeleteFailed (some "x"), [("r1", syncedReminder)]) :=
  ⟨by decide, rfl, rfl, by decide,
    (C5_delete_amended (fun _ => (false, some "x")) [("r1", syncedReminder)]
      "r1" syncedReminder "g1" (by decide) rfl rfl (by decide)).1 rfl⟩

/-- The fallback expression never yields an empty offset list. -/
theorem pyListOr_ne_nil (nm : Option (List Int)) :
    pyListOr nm [60, 1440] ≠ [] := by
  unfold pyListOr
  cases nm with
  | none => simp
  | some xs =>
    show (if xs.isEmpty = true then [60, 1440] else xs) ≠ []
    by_cases hxs : xs.isEmpty = true
    · rw [if_pos hxs]; simp
    · rw [if_neg hxs]
      intro hx
      exact hxs (by simp [hx])

/-- C10: a created reminder never has an empty offset list; in particular an
explicitly supplied empty notification_minutes list is falsy in the
fallback expression and silently becomes the default [60, 1440]. -/
theorem C10_default_offsets (eok : String → Bool) (now : Int) (fid t : String)
    (dtv : Int) (att : Option (List String)) (loc desc : Option String)
    (nm : Option (List Int)) (store : Store) (r : Reminder) (st' : Store)
    (h : create_reminder eok now fid t dtv att loc desc nm store =
      some (r, st')) :
    r.notification_settings.minutes_before ≠ [] ∧
    (nm = some [] → r.notification_settings.minutes_before = [60, 1440]) := by
  unfold create_reminder at h
  cases hmk : mkEventDetails eok now t dtv (att.getD []) loc desc with
  | none => rw [hmk] at h; cases h
  | some ev =>
    rw [hmk] at h
    simp only [Option.some.injEq, Prod.mk.injEq] at h
    obtain ⟨hr, _⟩ := h
    subst hr
    refine ⟨pyListOr_ne_nil nm, fun hnm => ?_⟩
    subst hnm
    rfl

/-- C10 witness: creating with an explicitly empty offset list yields the
default offsets. -/
theorem C10_witness :
    create_reminder (fun _ => true) 0 "id1" "t" 50 none none none (some []) [] =
      some (sampleCreated, [("id1", sampleCreated)]) ∧
    sampleCreated.notification_settings.minutes_before ≠ [] ∧
    (some ([] : List Int) = some [] →
      sampleCreated.notification_settings.minutes_before = [60, 1440]) :=
  ⟨by decide,
    C10_default_offsets (fun _ => true) 0 "id1" "t" 50 none none none
      (some []) [] sampleCreated [("id1", sampleCreated)] (by decide)⟩

/-- C3 counterexample: update_reminder applies any supplied status string
with no transition check, so a completed reminder is regressed to pending. -/
theorem C3_counterexample :
    completedReminder.status = .completed ∧
    lookupStore
      (update_reminder (fun _ => (true, none)) 50 [("r1", completedReminder)]
        "r1" (statusOnly "pending")).2 "r1" =
      some { completedReminder with status := .pending, updated_at := 50 } := by
  decide

/-- C6 counterexample: a tick whose only successful send is for an
already-notified reminder has sent_count > 0, so the store is rewritten
even though no reminder status changed (the persisted store equals the
input store). -/
theorem C6_counterexample :
    (check_and_send_reminders sendAlwaysOk none 100 [("r1", notifiedReminder)]
      []).store_saved = true ∧
    (check_and_send_reminders sendAlwaysOk none 100 [("r1", notifiedReminder)]
      []).store = [("r1", notifiedReminder)] := by
  decide

/-- C8 counterexample: get_pending_notifications never checks
email_enabled, so a disabled reminder contributes a row although the
evaluator computes no due offset for it. -/
theorem C8_counterexample :
    dueOffsets 10 disabledReminder [] = [] ∧
    (get_pending_notifications 10 [("r1", disabledReminder)] []).length = 1 := by
  decide

/-- C9 counterexample: with a capability that raises on reminder a1, the
tick aborts at the tick-level handler: reminder b1 is due but never
attempted, and neither file is persisted. -/
theorem C9_counterexample :
    (check_and_send_reminders sendRaiseA none 50
      [("a1", dueReminderA), ("b1", dueReminderB)] []).sends = [("a1", 60)] ∧
    dueOffsets 50 dueReminderB [] = [60] ∧
    (check_and_send_reminders sendRaiseA none 50
      [("a1", dueReminderA), ("b1", dueReminderB)] []).ledger_saved = false := by
  decide

/-- The inner loop changes the reminder only by the pending-to-notified
flip. -/
theorem po_ok_reminder (send : SendFn) (ef : Option String) (now : Int) :
    ∀ (ms : List Int) (r : Reminder) (log : Ledger)
      (sends : List (String × Int)) (cnt : Nat) (r2 : Reminder) (log2 : Ledger)
      (sends2 : List (String × Int)) (cnt2 : Nat),
      processOffsets send ef now ms r log sends cnt =
        Except.ok (r2, log2, sends2, cnt2) →
      r2 = r ∨ (r.status = .pending ∧ r2 = { r with status := .notified }) := by
  intro ms
  induction ms with
  | nil =>
    intro r log sends cnt r2 log2 sends2 cnt2 h
    simp only [processOffsets, Except.ok.injEq, Prod.mk.injEq] at h
    exact Or.inl h.1.symm
  | cons m ms ih =>
    intro r log sends cnt r2 log2 sends2 cnt2 h
    simp only [processOffsets] at h
    by_cases hdue : now ≥ r.event.datetime - m
    · rw [if_pos hdue] at h
      by_cases hcon : ledgerContains log (logKey r.id m) = true
      · rw [if_pos hcon] at h
        exact ih r log sends cnt r2 log2 sends2 cnt2 h
      · rw [if_neg hcon] at h
        rcases hsend : send r (recipientsFor ef r) m with e | ⟨success, err⟩ <;>
          simp only [hsend] at h
        · exact Except.noConfusion h
        · by_cases hsucc : success = true
          · rw [if_pos hsucc] at h
            by_cases hp : r.status = .pending
            · rw [if_pos hp] at h
              rcases ih _ _ _ _ _ _ _ _ h with h1 | ⟨h2, _⟩
              · exact Or.inr ⟨hp, h1⟩
              · exact absurd h2 (by simp)
            · rw [if_neg hp] at h
              exact ih _ _ _ _ _ _ _ _ h
          · rw [if_neg hsucc] at h
            exact ih _ _ _ _ _ _ _ _ h
    · rw [if_neg hdue] at h
      exact ih _ _ _ _ _ _ _ _ h

/-- The inner loop only appends to the ledger. -/
theorem po_ok_log_mono (send : SendFn) (ef : Option String) (now : Int) :
    ∀ (ms : List Int) (r : Reminder) (log : Ledger)
      (sends : List (String × Int)) (cnt : Nat) (r2 : Reminder) (log2 : Ledger)
      (sends2 : List (String × Int)) (cnt2 : Nat),
      processOffsets send ef now ms r log sends cnt =
        Except.ok (r2, log2, sends2, cnt2) →
      ∃ D, log2 = log ++ D := by
  intro ms
  induction ms with
  | nil =>
    intro r log sends cnt r2 log2 sends2 cnt2 h
    simp only [processOffsets, Except.ok.injEq, Prod.mk.injEq] at h
    exact ⟨[], by rw [← h.2.1]; simp⟩
  | cons m ms ih =>
    intro r log sends cnt r2 log2 sends2 cnt2 h
    simp only [processOffsets] at h
    by_cases hdue : now ≥ r.event.datetime - m
    · rw [if_pos hdue] at h
      by_cases hcon : ledgerContains log (logKey r.id m) = true
      · rw [if_pos hcon] at h
        exact ih _ _ _ _ _ _ _ _ h
      · rw [if_neg hcon] at h
        rcases hsend : send r (recipientsFor ef r) m with e | ⟨success, err⟩ <;>
          simp only [hsend] at h
        · exact Except.noConfusion h
        · by_cases hsucc : success = true
          · rw [if_pos hsucc] at h
            obtain ⟨D, hD⟩ := ih _ _ _ _ _ _ _ _ h
            exact ⟨_, by rw [hD, List.append_assoc]⟩
          · rw [if_neg hsucc] at h
            obtain ⟨D, hD⟩ := ih _ _ _ _ _ _ _ _ h
            exact ⟨_, by rw [hD, List.append_assoc]⟩
    · rw [if_neg hdue] at h
      exact ih _ _ _ _ _ _ _ _ h

/-- After a completed inner loop, every due offset of the reminder has its
key in the resulting ledger. -/
theorem po_ok_complete (send : SendFn) (ef : Option String) (now : Int) :
    ∀ (ms : List Int) (r : Reminder) (log : Ledger)
      (sends : List (String × Int)) (cnt : Nat) (r2 : Reminder) (log2 : Ledger)
      (sends2 : List (String × Int)) (cnt2 : Nat),
      processOffsets send ef now ms r log sends cnt =
        Except.ok (r2, log2, sends2, cnt2) →
      ∀ m2 ∈ ms, now ≥ r.event.datetime - m2 →
        ledgerContains log2 (logKey r.id m2) = true := by
  intro ms
  induction ms with
  | nil =>
    intro r log sends cnt r2 log2 sends2 cnt2 h m2 hm2
    exact absurd hm2 (List.not_mem_nil m2)
  | cons m ms ih =>
    intro r log sends cnt r2 log2 sends2 cnt2 h m2 hm2 hdue2
    simp only [processOffsets] at h
    rcases List.mem_cons.mp hm2 with hm2 | hm2
    · subst hm2
      rw [if_pos hdue2] at h
      by_cases hcon : ledgerContains log (logKey r.id m2) = true
      · rw [if_pos hcon] at h
        obtain ⟨D, hD⟩ := po_ok_log_mono send ef now _ _ _ _ _ _ _ _ _ h
        rw [hD]
        exact ledgerContains_mono D hcon
      · rw [if_neg hcon] at h
        rcases hsend : send r (recipientsFor ef r) m2 with e | ⟨success, err⟩ <;>
          simp only [hsend] at h
        · exact Except.noConfusion h
        · have hself : ledgerContains
              (log ++ [(logKey r.id m2,
                { reminder_id := r.id,
                  notification_time := r.event.datetime - m2,
                  minutes_before := m2, sent_at := now, success := success,
                  error_message := err })]) (logKey r.id m2) = true := by
            rw [ledgerContains_append]
            simp [ledgerContains]
          by_cases hsucc : success = true
          · rw [if_pos hsucc] at h
            obtain ⟨D, hD⟩ := po_ok_log_mono send ef now _ _ _ _ _ _ _ _ _ h
            rw [hD]
            exact ledgerContains_mono D hself
          · rw [if_neg hsucc] at h
            obtain ⟨D, hD⟩ := po_ok_log_mono send ef now _ _ _ _ _ _ _ _ _ h
            rw [hD]
            exact ledgerContains_mono D hself
    · by_cases hdue : now ≥ r.event.datetime - m
      · rw [if_pos hdue] at h
        by_cases hcon : ledgerContains log (logKey r.id m) = true
        · rw [if_pos hcon] at h
          exact ih _ _ _ _ _ _ _ _ h m2 hm2 hdue2
        · rw [if_neg hcon] at h
          rcases hsend : send r (recipientsFor ef r) m with e | ⟨success, err⟩ <;>
            simp only [hsend] at h
          · exact Except.noConfusion h
          · by_cases hsucc : success = true
            · rw [if_pos hsucc] at h
              by_cases hp : r.status = .pending
              · rw [if_pos hp] at h
                exact ih _ _ _ _ _ _ _ _ h m2 hm2 hdue2
              · rw [if_neg hp] at h
                exact ih _ _ _ _ _ _ _ _ h m2 hm2 hdue2
            · rw [if_neg hsucc] at h
              exact ih _ _ _ _ _ _ _ _ h m2 hm2 hdue2
      · rw [if_neg hdue] at h
        exact ih _ _ _ _ _ _ _ _ h m2 hm2 hdue2

/-- When every due offset of the reminder is already in the ledger, the
inner loop is a no-op. -/
theorem po_skip (send : SendFn) (ef : Option String) (now : Int) :
    ∀ (ms : List Int) (r : Reminder) (log : Ledger)
      (sends : List (String × Int)) (cnt : Nat),
      (∀ m2 ∈ ms, now ≥ r.event.datetime - m2 →
        ledgerContains log (logKey r.id m2) = true) →
      processOffsets send ef now ms r log sends cnt =
        Except.ok (r, log, sends, cnt) := by
  intro ms
  induction ms with
  | nil => intro r log sends cnt _; rfl
  | cons m ms ih =>
    intro r log sends cnt H
    simp only [processOffsets]
    by_cases hdue : now ≥ r.event.datetime - m
    · rw [if_pos hdue, if_pos (H m (List.mem_cons_self m ms) hdue)]
      exact ih r log sends cnt (fun m2 hm2 => H m2 (List.mem_cons_of_mem m hm2))
    · rw [if_neg hdue]
      exact ih r log sends cnt (fun m2 hm2 => H m2 (List.mem_cons_of_mem m hm2))

/-- With a capability that never raises, the inner loop completes. -/
theorem po_noabort (send : SendFn) (ef : Option String) (now : Int)
    (htot : sendTotal send) :
    ∀ (ms : List Int) (r : Reminder) (log : Ledger)
      (sends : List (String × Int)) (cnt : Nat),
      ∃ r2 log2 sends2 cnt2,
        processOffsets send ef now ms r log sends cnt =
          Except.ok (r2, log2, sends2, cnt2) := by
  intro ms
  induction ms with
  | nil => intro r log sends cnt; exact ⟨r, log, sends, cnt, rfl⟩
  | cons m ms ih =>
    intro r log sends cnt
    simp only [processOffsets]
    by_cases hdue : now ≥ r.event.datetime - m
    · rw [if_pos hdue]
      by_cases hcon : ledgerContains log (logKey r.id m) = true
      · rw [if_pos hcon]
        exact ih r log sends cnt
      · rw [if_neg hcon]
        obtain ⟨⟨success, err⟩, hsend⟩ := htot r (recipientsFor ef r) m
        simp only [hsend]
        by_cases hsucc : success = true
        · rw [if_pos hsucc]
          exact ih _ _ _ _
        · rw [if_neg hsucc]
          exact ih _ _ _ _
    · rw [if_neg hdue]
      exact ih r log sends cnt

/-- Every reminder of a completed tick's output store comes from an input
entry with the same key, either unchanged or flipped pending-to-notified. -/
theorem pa_ok_entries (send : SendFn) (ef : Option String) (now : Int) :
    ∀ (store : Store) (log : Ledger) (sends : List (String × Int)) (cnt : Nat)
      (store2 : Store) (log2 : Ledger) (sends2 : List (String × Int))
      (cnt2 : Nat),
      processAll send ef now store log sends cnt =
        Except.ok (store2, log2, sends2, cnt2) →
      ∀ q ∈ store2, ∃ p ∈ store, q.1 = p.1 ∧
        (q.2 = p.2 ∨
          (p.2.status = .pending ∧ q.2 = { p.2 with status := .notified })) := by
  intro store
  induction store with
  | nil =>
    intro log sends cnt store2 log2 sends2 cnt2 h q hq
    simp only [processAll, Except.ok.injEq, Prod.mk.injEq] at h
    rw [← h.1] at hq
    exact absurd hq (List.not_mem_nil q)
  | cons p0 rest ih =>
    intro log sends cnt store2 log2 sends2 cnt2 h q hq
    obtain ⟨k, r⟩ := p0
    simp only [processAll] at h
    by_cases hel : reminderEligible now r = true
    · rw [if_pos hel] at h
      rcases hpo : processOffsets send ef now
          r.notification_settings.minutes_before r log sends cnt with
        s2 | ⟨r2, log2x, sends2x, cnt2x⟩ <;> simp only [hpo] at h
      · exact Except.noConfusion h
      · rcases hpa : processAll send ef now rest log2x sends2x cnt2x with
          s3 | ⟨rest2, log3, sends3, cnt3⟩ <;> simp only [hpa] at h
        · exact Except.noConfusion h
        · simp only [Except.ok.injEq, Prod.mk.injEq] at h
          rw [← h.1] at hq
          rcases List.mem_cons.mp hq with hq | hq
          · subst hq
            exact ⟨(k, r), List.mem_cons_self _ _, rfl,
              po_ok_reminder send ef now _ _ _ _ _ _ _ _ _ hpo⟩
          · obtain ⟨p, hp, hrel⟩ := ih _ _ _ _ _ _ _ hpa q hq
            exact ⟨p, List.mem_cons_of_mem _ hp, hrel⟩
    · rw [if_neg hel] at h
      rcases hpa : processAll send ef now rest log sends cnt with
        s3 | ⟨rest2, log3, sends3, cnt3⟩ <;> simp only [hpa] at h
      · exact Except.noConfusion h
      · simp only [Except.ok.injEq, Prod.mk.injEq] at h
        rw [← h.1] at hq
        rcases List.mem_cons.mp hq with hq | hq
        · subst hq
          exact ⟨(k, r), List.mem_cons_self _ _, rfl, Or.inl rfl⟩
        · obtain ⟨p, hp, hrel⟩ := ih _ _ _ _ _ _ _ hpa q hq
          exact ⟨p, List.mem_cons_of_mem _ hp, hrel⟩

/-- The outer loop only appends to the ledger. -/
theorem pa_ok_log_mono (send : SendFn) (ef : Option String) (now : Int) :
    ∀ (store : Store) (log : Ledger) (sends : List (String × Int)) (cnt : Nat)
      (store2 : Store) (log2 : Ledger) (sends2 : List (String × Int))
      (cnt2 : Nat),
      processAll send ef now store log sends cnt =
        Except.ok (store2, log2, sends2, cnt2) →
      ∃ D, log2 = log ++ D := by
  intro store
  induction store with
  | nil =>
    intro log sends cnt store2 log2 sends2 cnt2 h
    simp only [processAll, Except.ok.injEq, Prod.mk.injEq] at h
    exact ⟨[], by rw [← h.2.1]; simp⟩
  | cons p0 rest ih =>
    intro log sends cnt store2 log2 sends2 cnt2 h
    obtain ⟨k, r⟩ := p0
    simp only [processAll] at h
    by_cases hel : reminderEligible now r = true
    · rw [if_pos hel] at h
      rcases hpo : processOffsets send ef now
          r.notification_settings.minutes_before r log sends cnt with
        s2 | ⟨r2, log2x, sends2x, cnt2x⟩ <;> simp only [hpo] at h
      · exact Except.noConfusion h
      · rcases hpa : processAll send ef now rest log2x sends2x cnt2x with
          s3 | ⟨rest2, log3, sends3, cnt3⟩ <;> simp only [hpa] at h
        · exact Except.noConfusion h
        · simp only [Except.ok.injEq, Prod.mk.injEq] at h
          obtain ⟨D1, hD1⟩ := po_ok_log_mono send ef now _ _ _ _ _ _ _ _ _ hpo
          obtain ⟨D2, hD2⟩ := ih _ _ _ _ _ _ _ hpa
          refine ⟨D1 ++ D2, ?_⟩
          rw [← h.2.1, hD2, hD1, List.append_assoc]
    · rw [if_neg hel] at h
      rcases hpa : processAll send ef now rest log sends cnt with
        s3 | ⟨rest2, log3, sends3, cnt3⟩ <;> simp only [hpa] at h
      · exact Except.noConfusion h
      · simp only [Except.ok.injEq, Prod.mk.injEq] at h
        obtain ⟨D2, hD2⟩ := ih _ _ _ _ _ _ _ hpa
        exact ⟨D2, by rw [← h.2.1, hD2]⟩

/-- After a completed outer loop, every due offset of every eligible
reminder of the input store has its key in the resulting ledger. -/
theorem pa_ok_complete (send : SendFn) (ef : Option String) (now : Int) :
    ∀ (store : Store) (log : Ledger) (sends : List (String × Int)) (cnt : Nat)
      (store2 : Store) (log2 : Ledger) (sends2 : List (String × Int))
      (cnt2 : Nat),
      processAll send ef now store log sends cnt =
        Except.ok (store2, log2, sends2, cnt2) →
      ∀ p ∈ store, reminderEligible now p.2 = true →
        ∀ m ∈ p.2.notification_settings.minutes_before,
          now ≥ p.2.event.datetime - m →
            ledgerContains log2 (logKey p.2.id m) = true := by
  intro store
  induction store with
  | nil =>
    intro log sends cnt store2 log2 sends2 cnt2 h p hp
    exact absurd hp (List.not_mem_nil p)
  | cons p0 rest ih =>
    intro log sends cnt store2 log2 sends2 cnt2 h p hp hpel m hm hdue
    obtain ⟨k, r⟩ := p0
    simp only [processAll] at h
    rcases List.mem_cons.mp hp with hp | hp
    · subst hp
      rw [if_pos hpel] at h
      rcases hpo : processOffsets send ef now
          r.notification_settings.minutes_before r log sends cnt with
        s2 | ⟨r2, log2x, sends2x, cnt2x⟩ <;> simp only [hpo] at h
      · exact Except.noConfusion h
      · rcases hpa : processAll send ef now rest log2x sends2x cnt2x with
          s3 | ⟨rest2, log3, sends3, cnt3⟩ <;> simp only [hpa] at h
        · exact Except.noConfusion h
        · simp only [Except.ok.injEq, Prod.mk.injEq] at h
          have h1 := po_ok_complete send ef now _ _ _ _ _ _ _ _ _ hpo m hm hdue
          obtain ⟨D2, hD2⟩ := pa_ok_log_mono send ef now _ _ _ _ _ _ _ _ hpa
          rw [← h.2.1, hD2]
          exact ledgerContains_mono D2 h1
    · by_cases hel : reminderEligible now r = true
      · rw [if_pos hel] at h
        rcases hpo : processOffsets send ef now
            r.notification_settings.minutes_before r log sends cnt with
          s2 | ⟨r2, log2x, sends2x, cnt2x⟩ <;> simp only [hpo] at h
        · exact Except.noConfusion h
        · rcases hpa : processAll send ef now rest log2x sends2x cnt2x with
            s3 | ⟨rest2, log3, sends3, cnt3⟩ <;> simp only [hpa] at h
          · exact Except.noConfusion h
          · simp only [Except.ok.injEq, Prod.mk.injEq] at h
            have h1 := ih _ _ _ _ _ _ _ hpa p hp hpel m hm hdue
            rw [← h.2.1]
            exact h1
      · rw [if_neg hel] at h
        rcases hpa : processAll send ef now rest log sends cnt with
          s3 | ⟨rest2, log3, sends3, cnt3⟩ <;> simp only [hpa] at h
        · exact Except.noConfusion h
        · simp only [Except.ok.injEq, Prod.mk.injEq] at h
          have h1 := ih _ _ _ _ _ _ _ hpa p hp hpel m hm hdue
          rw [← h.2.1]
          exact h1

/-- When every due offset of every eligible reminder already has its key in
the ledger, the outer loop is a no-op: nothing is attempted. -/
theorem pa_skip (send : SendFn) (ef : Option String) (now : Int) :
    ∀ (store : Store) (log : Ledger) (sends : List (String × Int)) (cnt : Nat),
      (∀ p ∈ store, reminderEligible now p.2 = true →
        ∀ m ∈ p.2.notification_settings.minutes_before,
          now ≥ p.2.event.datetime - m →
            ledgerContains log (logKey p.2.id m) = true) →
      processAll send ef now store log sends cnt =
        Except.ok (store, log, sends, cnt) := by
  intro store
  induction store with
  | nil => intro log sends cnt _; rfl
  | cons p0 rest ih =>
    intro log sends cnt H
    obtain ⟨k, r⟩ := p0
    have Hrest : ∀ p ∈ rest, reminderEligible now p.2 = true →
        ∀ m ∈ p.2.notification_settings.minutes_before,
          now ≥ p.2.event.datetime - m →
            ledgerContains log (logKey p.2.id m) = true :=
      fun p hp => H p (List.mem_cons_of_mem _ hp)
    simp only [processAll]
    by_cases hel : reminderEligible now r = true
    · rw [if_pos hel]
      have Hhead := H (k, r) (List.mem_cons_self _ _) hel
      simp only [po_skip send ef now r.notification_settings.minutes_before
        r log sends cnt Hhead, ih log sends cnt Hrest]
    · rw [if_neg hel]
      simp only [ih log sends cnt Hrest]

/-- With a capability that never raises, the outer loop completes. -/
theorem pa_noabort (send : SendFn) (ef : Option String) (now : Int)
    (htot : sendTotal send) :
    ∀ (store : Store) (log : Ledger) (sends : List (String × Int)) (cnt : Nat),
      ∃ store2 log2 sends2 cnt2,
        processAll send ef now store log sends cnt =
          Except.ok (store2, log2, sends2, cnt2) := by
  intro store
  induction store with
  | nil => intro log sends cnt; exact ⟨[], log, sends, cnt, rfl⟩
  | cons p0 rest ih =>
    intro log sends cnt
    obtain ⟨k, r⟩ := p0
    by_cases hel : reminderEligible now r = true
    · obtain ⟨r2, log2x, sends2x, cnt2x, hpo⟩ :=
        po_noabort send ef now htot r.notification_settings.minutes_before
          r log sends cnt
      obtain ⟨rest2, log3, sends3, cnt3, hpa⟩ := ih log2x sends2x cnt2x
      refine ⟨(k, r2) :: rest2, log3, sends3, cnt3, ?_⟩
      simp only [processAll]
      rw [if_pos hel]
      simp only [hpo, hpa]
    · obtain ⟨rest2, log3, sends3, cnt3, hpa⟩ := ih log sends cnt
      refine ⟨(k, r) :: rest2, log3, sends3, cnt3, ?_⟩
      simp only [processAll]
      rw [if_neg hel]
      simp only [hpa]

/-- C3 (amended): the Dispatch Loop tick respects the transition order — it
only ever moves a reminder from pending to notified and otherwise leaves
every status unchanged. (The Lifecycle Manager's update operation, by
contrast, applies any supplied status with no transition check, which is
what the counterexample exhibits.) -/
theorem C3_status_amended (send : SendFn) (ef : Option String) (now : Int)
    (store : Store) (ledger : Ledger) (hwf : StoreWF store)
    (q : String × Reminder)
    (hq : q ∈ (check_and_send_reminders send ef now store ledger).store) :
    ∃ p ∈ store, q.1 = p.1 ∧
      (q.2.status = p.2.status ∨
        (p.2.status = .pending ∧ q.2.status = .notified)) := by
  unfold check_and_send_reminders at hq
  rcases hpa : processAll send ef now store ledger [] 0 with
    s | ⟨store2, log2, sends2, cnt2⟩ <;> simp only [hpa] at hq
  · exact ⟨q, hq, rfl, Or.inl rfl⟩
  · change q ∈ (if cnt2 > 0 then store2 else store) at hq
    by_cases hcnt : cnt2 > 0
    · rw [if_pos hcnt] at hq
      obtain ⟨p, hp, hk, hrel⟩ := pa_ok_entries send ef now store ledger [] 0
        store2 log2 sends2 cnt2 hpa q hq
      refine ⟨p, hp, hk, ?_⟩
      rcases hrel with h1 | ⟨h2, h3⟩
      · exact Or.inl (by rw [h1])
      · exact Or.inr ⟨h2, by rw [h3]⟩
    · rw [if_neg hcnt] at hq
      exact ⟨q, hq, rfl, Or.inl rfl⟩

/-- C3 witness: a tick that sends successfully flips the sample pending
reminder to notified, a transition along the allowed order. -/
theorem C3_witness :
    StoreWF [("r1", sampleReminder)] ∧
    ("r1", { sampleReminder with status := ReminderStatus.notified }) ∈
      (check_and_send_reminders sendAlwaysOk none 50 [("r1", sampleReminder)]
        []).store ∧
    ∃ p ∈ [("r1", sampleReminder)],
      ("r1", { sampleReminder with status := ReminderStatus.notified }).1 =
        p.1 ∧
      (("r1", { sampleReminder with
          status := ReminderStatus.notified }).2.status = p.2.status ∨
        (p.2.status = ReminderStatus.pending ∧
          ("r1", { sampleReminder with
            status := ReminderStatus.notified }).2.status =
            ReminderStatus.notified)) :=
  ⟨by unfold StoreWF; decide, by decide,
    C3_status_amended sendAlwaysOk none 50 [("r1", sampleReminder)] []
      (by unfold StoreWF; decide) _ (by decide)⟩

/-- C2: running the dispatch tick twice in immediate succession — the second
tick reading the store and ledger produced by a first tick whose capability
returned on every call — attempts nothing: the second tick's due set is
empty, whatever its own capability and sender configuration are. -/
theorem C2_tick_idempotent (send1 send2 : SendFn) (ef ef2 : Option String)
    (now : Int) (store : Store) (ledger : Ledger) (hwf : StoreWF store)
    (htot : sendTotal send1) :
    (check_and_send_reminders send2 ef2 now
      (check_and_send_reminders send1 ef now store ledger).store
      (check_and_send_reminders send1 ef now store ledger).ledger).sends = [] := by
  obtain ⟨store2, log2, sends2, cnt2, hpa⟩ :=
    pa_noabort send1 ef now htot store ledger [] 0
  have hT1store : (check_and_send_reminders send1 ef now store ledger).store =
      (if cnt2 > 0 then store2 else store) := by
    unfold check_and_send_reminders
    rw [hpa]
  have hT1log :
      (check_and_send_reminders send1 ef now store ledger).ledger = log2 := by
    unfold check_and_send_reminders
    rw [hpa]
  rw [hT1store, hT1log]
  have H : ∀ p ∈ (if cnt2 > 0 then store2 else store),
      reminderEligible now p.2 = true →
      ∀ m ∈ p.2.notification_settings.minutes_before,
        now ≥ p.2.event.datetime - m →
          ledgerContains log2 (logKey p.2.id m) = true := by
    intro p hp hel m hm hdue
    by_cases hcnt : cnt2 > 0
    · rw [if_pos hcnt] at hp
      obtain ⟨p0, hp0, hk, hrel⟩ := pa_ok_entries send1 ef now store ledger
        [] 0 store2 log2 sends2 cnt2 hpa p hp
      rcases hrel with h1 | ⟨h2, h3⟩
      · rw [h1] at hel hm hdue
        rw [h1]
        exact pa_ok_complete send1 ef now store ledger [] 0 store2 log2
          sends2 cnt2 hpa p0 hp0 hel m hm hdue
      · have hel0 : reminderEligible now p0.2 = true := by
          rw [reminderEligible_iff] at hel ⊢
          rw [h3] at hel
          obtain ⟨_, hdt, hen⟩ := hel
          exact ⟨Or.inl h2, hdt, hen⟩
        have hm0 : m ∈ p0.2.notification_settings.minutes_before := by
          rw [h3] at hm; exact hm
        have hdue0 : now ≥ p0.2.event.datetime - m := by
          rw [h3] at hdue; exact hdue
        have hc := pa_ok_complete send1 ef now store ledger [] 0 store2 log2
          sends2 cnt2 hpa p0 hp0 hel0 m hm0 hdue0
        rw [h3]
        exact hc
    · rw [if_neg hcnt] at hp
      exact pa_ok_complete send1 ef now store ledger [] 0 store2 log2 sends2
        cnt2 hpa p hp hel m hm hdue
  have hskip := pa_skip send2 ef2 now (if cnt2 > 0 then store2 else store)
    log2 [] 0 H
  unfold check_and_send_reminders
  rw [hskip]

/-- C2 witness: the idempotence theorem instantiated on the sample store
with an always-successful capability. -/
theorem C2_witness :
    StoreWF [("r1", sampleReminder)] ∧
    sendTotal sendAlwaysOk ∧
    (check_and_send_reminders sendAlwaysOk none 50
      (check_and_send_reminders sendAlwaysOk none 50 [("r1", sampleReminder)]
        []).store
      (check_and_send_reminders sendAlwaysOk none 50 [("r1", sampleReminder)]
        []).ledger).sends = [] :=
  ⟨by unfold StoreWF; decide, fun _ _ _ => ⟨(true, none), rfl⟩,
    C2_tick_idempotent sendAlwaysOk sendAlwaysOk none none 50
      [("r1", sampleReminder)] [] (by unfold StoreWF; decide)
      (fun _ _ _ => ⟨(true, none), rfl⟩)⟩

/-- C6 (amended): in a tick whose capability returns on every call, the
ledger is persisted exactly once, and the store is persisted at most once
and exactly when at least one send succeeded (sent_count > 0) — not when a
status changed, since a successful send for an already-notified reminder
also triggers the save; a tick with no successful send does not rewrite the
store. -/
theorem C6_persistence_amended (send : SendFn) (ef : Option String)
    (now : Int) (store : Store) (ledger : Ledger) (hwf : StoreWF store)
    (htot : sendTotal send) :
    (check_and_send_reminders send ef now store ledger).ledger_saved = true ∧
    (check_and_send_reminders send ef now store ledger).store_saved =
      decide (0 <
        (check_and_send_reminders send ef now store ledger).sent_count) ∧
    ((check_and_send_reminders send ef now store ledger).sent_count = 0 →
      (check_and_send_reminders send ef now store ledger).store = store) := by
  obtain ⟨store2, log2, sends2, cnt2, hpa⟩ :=
    pa_noabort send ef now htot store ledger [] 0
  unfold check_and_send_reminders
  rw [hpa]
  refine ⟨rfl, rfl, fun hc => ?_⟩
  have hc2 : cnt2 = 0 := hc
  change (if cnt2 > 0 then store2 else store) = store
  rw [if_neg (by omega)]

/-- C6 witness: the amended persistence contract on the sample tick. -/
theorem C6_witness :
    StoreWF [("r1", sampleReminder)] ∧
    sendTotal sendAlwaysOk ∧
    ((check_and_send_reminders sendAlwaysOk none 50 [("r1", sampleReminder)]
        []).ledger_saved = true ∧
      (check_and_send_reminders sendAlwaysOk none 50 [("r1", sampleReminder)]
        []).store_saved =
        decide (0 < (check_and_send_reminders sendAlwaysOk none 50
          [("r1", sampleReminder)] []).sent_count) ∧
      ((check_and_send_reminders sendAlwaysOk none 50 [("r1", sampleReminder)]
        []).sent_count = 0 →
        (check_and_send_reminders sendAlwaysOk none 50
          [("r1", sampleReminder)] []).store = [("r1", sampleReminder)])) :=
  ⟨by unfold StoreWF; decide, fun _ _ _ => ⟨(true, none), rfl⟩,
    C6_persistence_amended sendAlwaysOk none 50 [("r1", sampleReminder)] []
      (by unfold StoreWF; decide) (fun _ _ _ => ⟨(true, none), rfl⟩)⟩

/-- A boolean that is not true is false. -/
theorem bool_eq_false {b : Bool} (h : ¬ b = true) : b = false := by
  cases b <;> simp_all

/-- A key with a nonzero count is contained. -/
theorem ledgerContains_true_of_count {L : Ledger} {k : String}
    (h : countKey L k ≠ 0) : ledgerContains L k = true := by
  cases hb : ledgerContains L k
  · exact absurd ((ledgerContains_eq_false_iff L k).mp hb) h
  · rfl

/-- Absence from an appended ledger implies absence from its front part. -/
theorem ledgerContains_false_of_append {L D : Ledger} {k : String}
    (h : ledgerContains (L ++ D) k = false) : ledgerContains L k = false := by
  rw [ledgerContains_append] at h
  exact (Bool.or_eq_false_iff.mp h).1

/-- Count of a key over a one-entry ledger. -/
theorem countKey_single (e : String × NotificationLog) (k : String) :
    countKey [e] k = if e.1 = k then 1 else 0 := by
  simp only [countKey, List.countP_cons, List.countP_nil, beq_iff_eq]
  split <;> simp

/-- Every capability invocation recorded by the inner loop beyond those
already recorded was for a key absent from the ledger it started from. -/
theorem po_sends_fresh (send : SendFn) (ef : Option String) (now : Int) :
    ∀ (ms : List Int) (r : Reminder) (log : Ledger)
      (sends : List (String × Int)) (cnt : Nat),
      ∀ x ∈ resultSends (processOffsets send ef now ms r log sends cnt),
        x ∈ sends ∨ ledgerContains log (logKey x.1 x.2) = false := by
  intro ms
  induction ms with
  | nil => intro r log sends cnt x hx; exact Or.inl hx
  | cons m ms ih =>
    intro r log sends cnt x hx
    simp only [processOffsets] at hx
    by_cases hdue : now ≥ r.event.datetime - m
    · rw [if_pos hdue] at hx
      by_cases hcon : ledgerContains log (logKey r.id m) = true
      · rw [if_pos hcon] at hx
        exact ih r log sends cnt x hx
      · rw [if_neg hcon] at hx
        rcases hsend : send r (recipientsFor ef r) m with e | ⟨success, err⟩ <;>
          simp only [hsend] at hx
        · change x ∈ sends ++ [(r.id, m)] at hx
          rcases List.mem_append.mp hx with h1 | h1
          · exact Or.inl h1
          · have hx2 := List.mem_singleton.mp h1
            subst hx2
            exact Or.inr (bool_eq_false hcon)
        · by_cases hsucc : success = true
          · rw [if_pos hsucc] at hx
            rcases ih _ _ _ _ x hx with h1 | h1
            · rcases List.mem_append.mp h1 with h2 | h2
              · exact Or.inl h2
              · have hx2 := List.mem_singleton.mp h2
                subst hx2
                exact Or.inr (bool_eq_false hcon)
            · exact Or.inr (ledgerContains_false_of_append h1)
          · rw [if_neg hsucc] at hx
            rcases ih _ _ _ _ x hx with h1 | h1
            · rcases List.mem_append.mp h1 with h2 | h2
              · exact Or.inl h2
              · have hx2 := List.mem_singleton.mp h2
                subst hx2
                exact Or.inr (bool_eq_false hcon)
            · exact Or.inr (ledgerContains_false_of_append h1)
    · rw [if_neg hdue] at hx
      exact ih r log sends cnt x hx

/-- The inner loop never adds another entry for a key that is already in
the ledger. -/
theorem po_count_frozen (send : SendFn) (ef : Option String) (now : Int) :
    ∀ (ms : List Int) (r : Reminder) (log : Ledger)
      (sends : List (String × Int)) (cnt : Nat) (r2 : Reminder) (log2 : Ledger)
      (sends2 : List (String × Int)) (cnt2 : Nat),
      processOffsets send ef now ms r log sends cnt =
        Except.ok (r2, log2, sends2, cnt2) →
      ∀ k, ledgerContains log k = true → countKey log2 k = countKey log k := by
  intro ms
  induction ms with
  | nil =>
    intro r log sends cnt r2 log2 sends2 cnt2 h k hk
    simp only [processOffsets, Except.ok.injEq, Prod.mk.injEq] at h
    rw [← h.2.1]
  | cons m ms ih =>
    intro r log sends cnt r2 log2 sends2 cnt2 h k hk
    simp only [processOffsets] at h
    by_cases hdue : now ≥ r.event.datetime - m
    · rw [if_pos hdue] at h
      by_cases hcon : ledgerContains log (logKey r.id m) = true
      · rw [if_pos hcon] at h
        exact ih _ _ _ _ _ _ _ _ h k hk
      · rw [if_neg hcon] at h
        rcases hsend : send r (recipientsFor ef r) m with e | ⟨success, err⟩ <;>
          simp only [hsend] at h
        · exact Except.noConfusion h
        · have hne : logKey r.id m ≠ k := by
            intro hq
            rw [hq] at hcon
            exact hcon hk
          have hstep : ∀ e2 : NotificationLog,
              countKey (log ++ [(logKey r.id m, e2)]) k = countKey log k := by
            intro e2
            rw [countKey_append, countKey_single, if_neg hne]
            simp
          have hk2 : ∀ e2 : NotificationLog,
              ledgerContains (log ++ [(logKey r.id m, e2)]) k = true :=
            fun e2 => ledgerContains_mono _ hk
          by_cases hsucc : success = true
          · rw [if_pos hsucc] at h
            rw [ih _ _ _ _ _ _ _ _ h k (hk2 _), hstep]
          · rw [if_neg hsucc] at h
            rw [ih _ _ _ _ _ _ _ _ h k (hk2 _), hstep]
    · rw [if_neg hdue] at h
      exact ih _ _ _ _ _ _ _ _ h k hk

/-- Each pair newly attempted by the inner loop had no ledger entry before
the loop and has exactly one more entry after it. -/
theorem po_count_new (send : SendFn) (ef : Option String) (now : Int) :
    ∀ (ms : List Int) (r : Reminder) (log : Ledger)
      (sends : List (String × Int)) (cnt : Nat) (r2 : Reminder) (log2 : Ledger)
      (sends2 : List (String × Int)) (cnt2 : Nat),
      processOffsets send ef now ms r log sends cnt =
        Except.ok (r2, log2, sends2, cnt2) →
      ∀ i m2, (i, m2) ∈ sends2 → (i, m2) ∉ sends →
        ledgerContains log (logKey i m2) = false ∧
        countKey log2 (logKey i m2) = countKey log (logKey i m2) + 1 := by
  intro ms
  induction ms with
  | nil =>
    intro r log sends cnt r2 log2 sends2 cnt2 h i m2 hmem hnot
    simp only [processOffsets, Except.ok.injEq, Prod.mk.injEq] at h
    rw [← h.2.2.1] at hmem
    exact absurd hmem hnot
  | cons m ms ih =>
    intro r log sends cnt r2 log2 sends2 cnt2 h i m2 hmem hnot
    simp only [processOffsets] at h
    by_cases hdue : now ≥ r.event.datetime - m
    · rw [if_pos hdue] at h
      by_cases hcon : ledgerContains log (logKey r.id m) = true
      · rw [if_pos hcon] at h
        exact ih _ _ _ _ _ _ _ _ h i m2 hmem hnot
      · rw [if_neg hcon] at h
        rcases hsend : send r (recipientsFor ef r) m with e | ⟨success, err⟩ <;>
          simp only [hsend] at h
        · exact Except.noConfusion h
        · have main : ∀ (rr : Reminder) (cc : Nat),
              processOffsets send ef now ms rr
                (log ++ [(logKey r.id m,
                  { reminder_id := r.id,
                    notification_time := r.event.datetime - m,
                    minutes_before := m, sent_at := now, success := success,
                    error_message := err })])
                (sends ++ [(r.id, m)]) cc =
                Except.ok (r2, log2, sends2, cnt2) →
              ledgerContains log (logKey i m2) = false ∧
              countKey log2 (logKey i m2) =
                countKey log (logKey i m2) + 1 := by
            intro rr cc hrec
            by_cases hmid : (i, m2) ∈ sends ++ [(r.id, m)]
            · rcases List.mem_append.mp hmid with h2 | h2
              · exact absurd h2 hnot
              · have hx2 := List.mem_singleton.mp h2
                have hi : i = r.id := congrArg Prod.fst hx2
                have hm : m2 = m := congrArg Prod.snd hx2
                rw [hi, hm]
                refine ⟨bool_eq_false hcon, ?_⟩
                have hself : ledgerContains
                    (log ++ [(logKey r.id m,
                      { reminder_id := r.id,
                        notification_time := r.event.datetime - m,
                        minutes_before := m, sent_at := now,
                        success := success,
                        error_message := err })]) (logKey r.id m) = true := by
                  rw [ledgerContains_append]
                  simp [ledgerContains]
                have hfr := po_count_frozen send ef now _ _ _ _ _ _ _ _ _
                  hrec (logKey r.id m) hself
                rw [hfr, countKey_append, countKey_single, if_pos rfl]
            · obtain ⟨hf, hc⟩ := ih _ _ _ _ _ _ _ _ hrec i m2 hmem hmid
              have hf0 : ledgerContains log (logKey i m2) = false :=
                ledgerContains_false_of_append hf
              refine ⟨hf0, ?_⟩
              rw [hc, (ledgerContains_eq_false_iff _ _).mp hf,
                (ledgerContains_eq_false_iff _ _).mp hf0]
          by_cases hsucc : success = true
          · rw [if_pos hsucc] at h
            exact main _ _ h
          · rw [if_neg hsucc] at h
            exact main _ _ h
    · rw [if_neg hdue] at h
      exact ih _ _ _ _ _ _ _ _ h i m2 hmem hnot

/-- The inner loop only appends to the attempted-send list. -/
theorem po_ok_sends_mono (send : SendFn) (ef : Option String) (now : Int) :
    ∀ (ms : List Int) (r : Reminder) (log : Ledger)
      (sends : List (String × Int)) (cnt : Nat) (r2 : Reminder) (log2 : Ledger)
      (sends2 : List (String × Int)) (cnt2 : Nat),
      processOffsets send ef now ms r log sends cnt =
        Except.ok (r2, log2, sends2, cnt2) →
      ∃ S, sends2 = sends ++ S := by
  intro ms
  induction ms with
  | nil =>
    intro r log sends cnt r2 log2 sends2 cnt2 h
    simp only [processOffsets, Except.ok.injEq, Prod.mk.injEq] at h
    exact ⟨[], by rw [← h.2.2.1]; simp⟩
  | cons m ms ih =>
    intro r log sends cnt r2 log2 sends2 cnt2 h
    simp only [processOffsets] at h
    by_cases hdue : now ≥ r.event.datetime - m
    · rw [if_pos hdue] at h
      by_cases hcon : ledgerContains log (logKey r.id m) = true
      · rw [if_pos hcon] at h
        exact ih _ _ _ _ _ _ _ _ h
      · rw [if_neg hcon] at h
        rcases hsend : send r (recipientsFor ef r) m with e | ⟨success, err⟩ <;>
          simp only [hsend] at h
        · exact Except.noConfusion h
        · by_cases hsucc : success = true
          · rw [if_pos hsucc] at h
            obtain ⟨S, hS⟩ := ih _ _ _ _ _ _ _ _ h
            exact ⟨_, by rw [hS, List.append_assoc]⟩
          · rw [if_neg hsucc] at h
            obtain ⟨S, hS⟩ := ih _ _ _ _ _ _ _ _ h
            exact ⟨_, by rw [hS, List.append_assoc]⟩
    · rw [if_neg hdue] at h
      exact ih _ _ _ _ _ _ _ _ h

/-- The outer loop only appends to the attempted-send list. -/
theorem pa_ok_sends_mono (send : SendFn) (ef : Option String) (now : Int) :
    ∀ (store : Store) (log : Ledger) (sends : List (String × Int)) (cnt : Nat)
      (store2 : Store) (log2 : Ledger) (sends2 : List (String × Int))
      (cnt2 : Nat),
      processAll send ef now store log sends cnt =
        Except.ok (store2, log2, sends2, cnt2) →
      ∃ S, sends2 = sends ++ S := by
  intro store
  induction store with
  | nil =>
    intro log sends cnt store2 log2 sends2 cnt2 h
    simp only [processAll, Except.ok.injEq, Prod.mk.injEq] at h
    exact ⟨[], by rw [← h.2.2.1]; simp⟩
  | cons p0 rest ih =>
    intro log sends cnt store2 log2 sends2 cnt2 h
    obtain ⟨k, r⟩ := p0
    simp only [processAll] at h
    by_cases hel : reminderEligible now r = true
    · rw [if_pos hel] at h
      rcases hpo : processOffsets send ef now
          r.notification_settings.minutes_before r log sends cnt with
        s2 | ⟨r2, log2x, sends2x, cnt2x⟩ <;> simp only [hpo] at h
      · exact Except.noConfusion h
      · rcases hpa : processAll send ef now rest log2x sends2x cnt2x with
          s3 | ⟨rest2, log3, sends3, cnt3⟩ <;> simp only [hpa] at h
        · exact Except.noConfusion h
        · simp only [Except.ok.injEq, Prod.mk.injEq] at h
          obtain ⟨S1, hS1⟩ := po_ok_sends_mono send ef now _ _ _ _ _ _ _ _ _ hpo
          obtain ⟨S2, hS2⟩ := ih _ _ _ _ _ _ _ hpa
          exact ⟨S1 ++ S2, by rw [← h.2.2.1, hS2, hS1, List.append_assoc]⟩
    · rw [if_neg hel] at h
      rcases hpa : processAll send ef now rest log sends cnt with
        s3 | ⟨rest2, log3, sends3, cnt3⟩ <;> simp only [hpa] at h
      · exact Except.noConfusion h
      · simp only [Except.ok.injEq, Prod.mk.injEq] at h
        obtain ⟨S2, hS2⟩ := ih _ _ _ _ _ _ _ hpa
        exact ⟨S2, by rw [← h.2.2.1, hS2]⟩

/-- Every capability invocation recorded by the outer loop beyond those
already recorded was for a key absent from the ledger the tick loaded. -/
theorem pa_sends_fresh (send : SendFn) (ef : Option String) (now : Int) :
    ∀ (store : Store) (log : Ledger) (sends : List (String × Int)) (cnt : Nat),
      ∀ x ∈ resultSends (processAll send ef now store log sends cnt),
        x ∈ sends ∨ ledgerContains log (logKey x.1 x.2) = false := by
  intro store
  induction store with
  | nil => intro log sends cnt x hx; exact Or.inl hx
  | cons p0 rest ih =>
    intro log sends cnt x hx
    obtain ⟨k, r⟩ := p0
    simp only [processAll] at hx
    by_cases hel : reminderEligible now r = true
    · rw [if_pos hel] at hx
      rcases hpo : processOffsets send ef now
          r.notification_settings.minutes_before r log sends cnt with
        s2 | ⟨r2, log2x, sends2x, cnt2x⟩ <;> simp only [hpo] at hx
      · exact po_sends_fresh send ef now _ r log sends cnt x
          (by rw [hpo]; exact hx)
      · have htail : ∀ y ∈ resultSends (processAll send ef now rest log2x
            sends2x cnt2x),
            y ∈ sends ∨ ledgerContains log (logKey y.1 y.2) = false := by
          intro y hy
          rcases ih log2x sends2x cnt2x y hy with h1 | h1
          · exact po_sends_fresh send ef now _ r log sends cnt y
              (by rw [hpo]; exact h1)
          · obtain ⟨D, hD⟩ := po_ok_log_mono send ef now _ _ _ _ _ _ _ _ _ hpo
            rw [hD] at h1
            exact Or.inr (ledgerContains_false_of_append h1)
        rcases hpa : processAll send ef now rest log2x sends2x cnt2x with
          s3 | ⟨rest2, log3, sends3, cnt3⟩ <;> simp only [hpa] at hx
        · exact htail x (by rw [hpa]; exact hx)
        · exact htail x (by rw [hpa]; exact hx)
    · rw [if_neg hel] at hx
      rcases hpa : processAll send ef now rest log sends cnt with
        s3 | ⟨rest2, log3, sends3, cnt3⟩ <;> simp only [hpa] at hx
      · exact ih log sends cnt x (by rw [hpa]; exact hx)
      · exact ih log sends cnt x (by rw [hpa]; exact hx)

/-- The outer loop never adds another entry for a key already present in
the ledger it started from. -/
theorem pa_count_frozen (send : SendFn) (ef : Option String) (now : Int) :
    ∀ (store : Store) (log : Ledger) (sends : List (String × Int)) (cnt : Nat)
      (store2 : Store) (log2 : Ledger) (sends2 : List (String × Int))
      (cnt2 : Nat),
      processAll send ef now store log sends cnt =
        Except.ok (store2, log2, sends2, cnt2) →
      ∀ k, ledgerContains log k = true → countKey log2 k = countKey log k := by
  intro store
  induction store with
  | nil =>
    intro log sends cnt store2 log2 sends2 cnt2 h k hk
    simp only [processAll, Except.ok.injEq, Prod.mk.injEq] at h
    rw [← h.2.1]
  | cons p0 rest ih =>
    intro log sends cnt store2 log2 sends2 cnt2 h k hk
    obtain ⟨k0, r⟩ := p0
    simp only [processAll] at h
    by_cases hel : reminderEligible now r = true
    · rw [if_pos hel] at h
      rcases hpo : processOffsets send ef now
          r.notification_settings.minutes_before r log sends cnt with
        s2 | ⟨r2, log2x, sends2x, cnt2x⟩ <;> simp only [hpo] at h
      · exact Except.noConfusion h
      · rcases hpa : processAll send ef now rest log2x sends2x cnt2x with
          s3 | ⟨rest2, log3, sends3, cnt3⟩ <;> simp only [hpa] at h
        · exact Except.noConfusion h
        · simp only [Except.ok.injEq, Prod.mk.injEq] at h
          have hmid : ledgerContains log2x k = true := by
            obtain ⟨D, hD⟩ := po_ok_log_mono send ef now _ _ _ _ _ _ _ _ _ hpo
            rw [hD]
            exact ledgerContains_mono D hk
          rw [← h.2.1, ih _ _ _ _ _ _ _ hpa k hmid,
            po_count_frozen send ef now _ _ _ _ _ _ _ _ _ hpo k hk]
    · rw [if_neg hel] at h
      rcases hpa : processAll send ef now rest log sends cnt with
        s3 | ⟨rest2, log3, sends3, cnt3⟩ <;> simp only [hpa] at h
      · exact Except.noConfusion h
      · simp only [Except.ok.injEq, Prod.mk.injEq] at h
        rw [← h.2.1, ih _ _ _ _ _ _ _ hpa k hk]

/-- Each pair newly attempted by a completed outer loop had no ledger entry
before the tick and has exactly one more entry after it. -/
theorem pa_count_new (send : SendFn) (ef : Option String) (now : Int) :
    ∀ (store : Store) (log : Ledger) (sends : List (String × Int)) (cnt : Nat)
      (store2 : Store) (log2 : Ledger) (sends2 : List (String × Int))
      (cnt2 : Nat),
      processAll send ef now store log sends cnt =
        Except.ok (store2, log2, sends2, cnt2) →
      ∀ i m2, (i, m2) ∈ sends2 → (i, m2) ∉ sends →
        ledgerContains log (logKey i m2) = false ∧
        countKey log2 (logKey i m2) = countKey log (logKey i m2) + 1 := by
  intro store
  induction store with
  | nil =>
    intro log sends cnt store2 log2 sends2 cnt2 h i m2 hmem hnot
    simp only [processAll, Except.ok.injEq, Prod.mk.injEq] at h
    rw [← h.2.2.1] at hmem
    exact absurd hmem hnot
  | cons p0 rest ih =>
    intro log sends cnt store2 log2 sends2 cnt2 h i m2 hmem hnot
    obtain ⟨k0, r⟩ := p0
    simp only [processAll] at h
    by_cases hel : reminderEligible now r = true
    · rw [if_pos hel] at h
      rcases hpo : processOffsets send ef now
          r.notification_settings.minutes_before r log sends cnt with
        s2 | ⟨r2, log2x, sends2x, cnt2x⟩ <;> simp only [hpo] at h
      · exact Except.noConfusion h
      · rcases hpa : processAll send ef now rest log2x sends2x cnt2x with
          s3 | ⟨rest2, log3, sends3, cnt3⟩ <;> simp only [hpa] at h
        · exact Except.noConfusion h
        · simp only [Except.ok.injEq, Prod.mk.injEq] at h
          rw [← h.2.2.1] at hmem
          by_cases hmid : (i, m2) ∈ sends2x
          · obtain ⟨hf, hc⟩ :=
              po_count_new send ef now _ _ _ _ _ _ _ _ _ hpo i m2 hmid hnot
            have hcon2 : ledgerContains log2x (logKey i m2) = true :=
              ledgerContains_true_of_count (by omega)
            refine ⟨hf, ?_⟩
            rw [← h.2.1,
              pa_count_frozen send ef now _ _ _ _ _ _ _ _ hpa
                (logKey i m2) hcon2, hc]
          · obtain ⟨hf, hc⟩ := ih _ _ _ _ _ _ _ hpa i m2 hmem hmid
            obtain ⟨D, hD⟩ := po_ok_log_mono send ef now _ _ _ _ _ _ _ _ _ hpo
            have hf0 : ledgerContains log (logKey i m2) = false := by
              rw [hD] at hf
              exact ledgerContains_false_of_append hf
            refine ⟨hf0, ?_⟩
            rw [← h.2.1, hc, (ledgerContains_eq_false_iff _ _).mp hf,
              (ledgerContains_eq_false_iff _ _).mp hf0]
    · rw [if_neg hel] at h
      rcases hpa : processAll send ef now rest log sends cnt with
        s3 | ⟨rest2, log3, sends3, cnt3⟩ <;> simp only [hpa] at h
      · exact Except.noConfusion h
      · simp only [Except.ok.injEq, Prod.mk.injEq] at h
        obtain ⟨hf, hc⟩ := ih _ _ _ _ _ _ _ hpa i m2 (by rw [h.2.2.1]; exact hmem) hnot
        exact ⟨hf, by rw [← h.2.1]; exact hc⟩

/-- Every key that appears in the ledger after a completed inner loop was
either already there or belongs to a recorded invocation. -/
theorem po_key_to_send (send : SendFn) (ef : Option String) (now : Int) :
    ∀ (ms : List Int) (r : Reminder) (log : Ledger)
      (sends : List (String × Int)) (cnt : Nat) (r2 : Reminder) (log2 : Ledger)
      (sends2 : List (String × Int)) (cnt2 : Nat),
      processOffsets send ef now ms r log sends cnt =
        Except.ok (r2, log2, sends2, cnt2) →
      ∀ k, ledgerContains log2 k = true →
        ledgerContains log k = true ∨ ∃ x ∈ sends2, logKey x.1 x.2 = k := by
  intro ms
  induction ms with
  | nil =>
    intro r log sends cnt r2 log2 sends2 cnt2 h k hk
    simp only [processOffsets, Except.ok.injEq, Prod.mk.injEq] at h
    rw [← h.2.1] at hk
    exact Or.inl hk
  | cons m ms ih =>
    intro r log sends cnt r2 log2 sends2 cnt2 h k hk
    simp only [processOffsets] at h
    by_cases hdue : now ≥ r.event.datetime - m
    · rw [if_pos hdue] at h
      by_cases hcon : ledgerContains log (logKey r.id m) = true
      · rw [if_pos hcon] at h
        exact ih _ _ _ _ _ _ _ _ h k hk
      · rw [if_neg hcon] at h
        rcases hsend : send r (recipientsFor ef r) m with e | ⟨success, err⟩ <;>
          simp only [hsend] at h
        · exact Except.noConfusion h
        · have main : ∀ (rr : Reminder) (cc : Nat),
              processOffsets send ef now ms rr
                (log ++ [(logKey r.id m,
                  { reminder_id := r.id,
                    notification_time := r.event.datetime - m,
                    minutes_before := m, sent_at := now, success := success,
                    error_message := err })])
                (sends ++ [(r.id, m)]) cc =
                Except.ok (r2, log2, sends2, cnt2) →
              ledgerContains log k = true ∨
                ∃ x ∈ sends2, logKey x.1 x.2 = k := by
            intro rr cc hrec
            obtain ⟨S, hS⟩ := po_ok_sends_mono send ef now _ _ _ _ _ _ _ _ _
              hrec
            rcases ih _ _ _ _ _ _ _ _ hrec k hk with h1 | h1
            · rw [ledgerContains_append] at h1
              rcases Bool.or_eq_true_iff.mp h1 with h2 | h2
              · exact Or.inl h2
              · have hkk : logKey r.id m = k := by
                  simpa [ledgerContains] using h2
                refine Or.inr ⟨(r.id, m), ?_, hkk⟩
                rw [hS]
                exact List.mem_append_left S
                  (List.mem_append_right sends (List.mem_singleton_self _))
            · exact Or.inr h1
          by_cases hsucc : success = true
          · rw [if_pos hsucc] at h
            exact main _ _ h
          · rw [if_neg hsucc] at h
            exact main _ _ h
    · rw [if_neg hdue] at h
      exact ih _ _ _ _ _ _ _ _ h k hk

/-- Every key that appears in the ledger after a completed outer loop was
either already there or belongs to a recorded invocation. -/
theorem pa_key_to_send (send : SendFn) (ef : Option String) (now : Int) :
    ∀ (store : Store) (log : Ledger) (sends : List (String × Int)) (cnt : Nat)
      (store2 : Store) (log2 : Ledger) (sends2 : List (String × Int))
      (cnt2 : Nat),
      processAll send ef now store log sends cnt =
        Except.ok (store2, log2, sends2, cnt2) →
      ∀ k, ledgerContains log2 k = true →
        ledgerContains log k = true ∨ ∃ x ∈ sends2, logKey x.1 x.2 = k := by
  intro store
  induction store with
  | nil =>
    intro log sends cnt store2 log2 sends2 cnt2 h k hk
    simp only [processAll, Except.ok.injEq, Prod.mk.injEq] at h
    rw [← h.2.1] at hk
    exact Or.inl hk
  | cons p0 rest ih =>
    intro log sends cnt store2 log2 sends2 cnt2 h k hk
    obtain ⟨k0, r⟩ := p0
    simp only [processAll] at h
    by_cases hel : reminderEligible now r = true
    · rw [if_pos hel] at h
      rcases hpo : processOffsets send ef now
          r.notification_settings.minutes_before r log sends cnt with
        s2 | ⟨r2, log2x, sends2x, cnt2x⟩ <;> simp only [hpo] at h
      · exact Except.noConfusion h
      · rcases hpa : processAll send ef now rest log2x sends2x cnt2x with
          s3 | ⟨rest2, log3, sends3, cnt3⟩ <;> simp only [hpa] at h
        · exact Except.noConfusion h
        · simp only [Except.ok.injEq, Prod.mk.injEq] at h
          obtain ⟨S2, hS2⟩ := pa_ok_sends_mono send ef now _ _ _ _ _ _ _ _ hpa
          rw [← h.2.1] at hk
          rcases ih _ _ _ _ _ _ _ hpa k hk with h1 | h1
          · rcases po_key_to_send send ef now _ _ _ _ _ _ _ _ _ hpo k h1 with
              h2 | ⟨x, hx, hxk⟩
            · exact Or.inl h2
            · refine Or.inr ⟨x, ?_, hxk⟩
              rw [← h.2.2.1, hS2]
              exact List.mem_append_left S2 hx
          · rw [← h.2.2.1]
            exact Or.inr h1
    · rw [if_neg hel] at h
      rcases hpa : processAll send ef now rest log sends cnt with
        s3 | ⟨rest2, log3, sends3, cnt3⟩ <;> simp only [hpa] at h
      · exact Except.noConfusion h
      · simp only [Except.ok.injEq, Prod.mk.injEq] at h
        rcases ih _ _ _ _ _ _ _ hpa k (by rw [h.2.1]; exact hk) with h1 | h1
        · exact Or.inl h1
        · rw [← h.2.2.1]
          exact Or.inr h1

/-- The tick's attempted-send list is the one recorded by the outer loop,
whether the loop completed or aborted. -/
theorem tick_sends_eq (send : SendFn) (ef : Option String) (now : Int)
    (store : Store) (ledger : Ledger) :
    (check_and_send_reminders send ef now store ledger).sends =
      resultSends (processAll send ef now store ledger [] 0) := by
  unfold check_and_send_reminders
  rcases h : processAll send ef now store ledger [] 0 with
    s | ⟨a, b, c, d⟩ <;> simp [resultSends]

/-- Membership of the evaluator's due list, spelled out. -/
theorem mem_dueOffsets (now : Int) (r : Reminder) (log : Ledger) (m : Int) :
    m ∈ dueOffsets now r log ↔
      reminderEligible now r = true ∧
      m ∈ r.notification_settings.minutes_before ∧
      now ≥ r.event.datetime - m ∧
      ledgerContains log (logKey r.id m) = false := by
  cases he : reminderEligible now r
  · simp [dueOffsets, he]
  · simp [dueOffsets, he, List.mem_filter, and_assoc]

/-- C7: in a tick whose capability returns on every call, each attempted
(reminder, offset) pair — successful or failed — ends the tick with exactly
one ledger entry under its key; and a pair whose key is already in the
loaded ledger is never attempted in any tick. -/
theorem C7_ledger_once (send : SendFn) (ef : Option String) (now : Int)
    (store : Store) (ledger : Ledger) (hwf : StoreWF store) (i : String)
    (m : Int) :
    (sendTotal send →
      (i, m) ∈ (check_and_send_reminders send ef now store ledger).sends →
      countKey (check_and_send_reminders send ef now store ledger).ledger
        (logKey i m) = 1) ∧
    (ledgerContains ledger (logKey i m) = true →
      (i, m) ∉ (check_and_send_reminders send ef now store ledger).sends) := by
  constructor
  · intro htot hmem
    obtain ⟨store2, log2, sends2, cnt2, hpa⟩ :=
      pa_noabort send ef now htot store ledger [] 0
    have hs : (check_and_send_reminders send ef now store ledger).sends =
        sends2 := by
      unfold check_and_send_reminders; rw [hpa]
    have hl : (check_and_send_reminders send ef now store ledger).ledger =
        log2 := by
      unfold check_and_send_reminders; rw [hpa]
    rw [hs] at hmem
    rw [hl]
    obtain ⟨hfresh, hcount⟩ := pa_count_new send ef now store ledger [] 0
      store2 log2 sends2 cnt2 hpa i m hmem (List.not_mem_nil _)
    rw [hcount, (ledgerContains_eq_false_iff ledger (logKey i m)).mp hfresh]
  · intro hcon hmem
    have hfr := pa_sends_fresh send ef now store ledger [] 0 (i, m)
      (by rw [← tick_sends_eq]; exact hmem)
    rcases hfr with h1 | h1
    · exact absurd h1 (List.not_mem_nil _)
    · have h2 : ledgerContains ledger (logKey i m) = false := h1
      rw [hcon] at h2
      exact Bool.noConfusion h2

/-- C7 witness: the sample tick attempts (r1, 60) and records exactly one
entry; with that entry already in the ledger, a tick never attempts the
pair again. -/
theorem C7_witness :
    sendTotal sendAlwaysOk ∧
    StoreWF [("r1", sampleReminder)] ∧
    ("r1", 60) ∈ (check_and_send_reminders sendAlwaysOk none 50
      [("r1", sampleReminder)] []).sends ∧
    countKey (check_and_send_reminders sendAlwaysOk none 50
      [("r1", sampleReminder)] []).ledger (logKey "r1" 60) = 1 ∧
    ledgerContains sampleLedger (logKey "r1" 60) = true ∧
    ("r1", 60) ∉ (check_and_send_reminders sendAlwaysOk none 50
      [("r1", sampleReminder)] sampleLedger).sends :=
  ⟨fun _ _ _ => ⟨(true, none), rfl⟩, by unfold StoreWF; decide, by decide,
    (C7_ledger_once sendAlwaysOk none 50 [("r1", sampleReminder)] []
      (by unfold StoreWF; decide) "r1" 60).1
      (fun _ _ _ => ⟨(true, none), rfl⟩) (by decide),
    by decide,
    (C7_ledger_once sendAlwaysOk none 50 [("r1", sampleReminder)]
      sampleLedger (by unfold StoreWF; decide) "r1" 60).2 (by decide)⟩

/-- C9 (amended): a send failure returned as a value never aborts the tick —
with a capability that returns on every call the tick runs to completion,
persists the ledger, and attempts every (reminder, offset) pair the
evaluator deems due on the loaded snapshot. Only a raised exception (which
the repository's email service prevents by catching its own errors) aborts
the remaining reminders, as the counterexample shows. -/
theorem C9_no_abort_amended (send : SendFn) (ef : Option String) (now : Int)
    (store : Store) (ledger : Ledger) (hwf : StoreWF store)
    (htot : sendTotal send) :
    (check_and_send_reminders send ef now store ledger).ledger_saved = true ∧
    ∀ p ∈ store, ∀ m ∈ dueOffsets now p.2 ledger,
      ∃ x ∈ (check_and_send_reminders send ef now store ledger).sends,
        logKey x.1 x.2 = logKey p.2.id m := by
  obtain ⟨store2, log2, sends2, cnt2, hpa⟩ :=
    pa_noabort send ef now htot store ledger [] 0
  have hsends : (check_and_send_reminders send ef now store ledger).sends =
      sends2 := by
    unfold check_and_send_reminders; rw [hpa]
  have hls : (check_and_send_reminders send ef now store ledger).ledger_saved =
      true := by
    unfold check_and_send_reminders; rw [hpa]
  refine ⟨hls, fun p hp m hm => ?_⟩
  rw [hsends]
  obtain ⟨hel, hmm, hdue, hfree⟩ := (mem_dueOffsets now p.2 ledger m).mp hm
  have hcontains := pa_ok_complete send ef now store ledger [] 0 store2 log2
    sends2 cnt2 hpa p hp hel m hmm hdue
  rcases pa_key_to_send send ef now store ledger [] 0 store2 log2 sends2 cnt2
    hpa (logKey p.2.id m) hcontains with h1 | h1
  · rw [hfree] at h1
    exact Bool.noConfusion h1
  · exact h1

/-- C9 witness: the amended no-abort property on a two-reminder store with
an always-returning capability. -/
theorem C9_witness :
    StoreWF [("a1", dueReminderA), ("b1", dueReminderB)] ∧
    sendTotal sendAlwaysOk ∧
    ((check_and_send_reminders sendAlwaysOk none 50
      [("a1", dueReminderA), ("b1", dueReminderB)] []).ledger_saved = true ∧
    ∀ p ∈ [("a1", dueReminderA), ("b1", dueReminderB)],
      ∀ m ∈ dueOffsets 50 p.2 [],
        ∃ x ∈ (check_and_send_reminders sendAlwaysOk none 50
          [("a1", dueReminderA), ("b1", dueReminderB)] []).sends,
          logKey x.1 x.2 = logKey p.2.id m) :=
  ⟨by unfold StoreWF; decide, fun _ _ _ => ⟨(true, none), rfl⟩,
    C9_no_abort_amended sendAlwaysOk none 50
      [("a1", dueReminderA), ("b1", dueReminderB)] []
      (by unfold StoreWF; decide) (fun _ _ _ => ⟨(true, none), rfl⟩)⟩

/-- Insertion preserves the members of a pending list. -/
theorem mem_insertByTime (e : PendingEntry) (l : List PendingEntry)
    (a : PendingEntry) : a ∈ insertByTime e l ↔ a = e ∨ a ∈ l := by
  induction l with
  | nil => simp [insertByTime]
  | cons x xs ih =>
    simp only [insertByTime]
    split
    · simp [List.mem_cons]
    · simp only [List.mem_cons, ih]
      tauto

/-- Sorting preserves the members of a pending list. -/
theorem mem_sortByTime (l : List PendingEntry) (a : PendingEntry) :
    a ∈ sortByTime l ↔ a ∈ l := by
  induction l with
  | nil => simp [sortByTime]
  | cons x xs ih => simp [sortByTime, mem_insertByTime, ih]

/-- Insertion into a list sorted by notification_time stays sorted. -/
theorem insertByTime_pairwise (e : PendingEntry) (l : List PendingEntry)
    (h : l.Pairwise (fun a b => a.notification_time ≤ b.notification_time)) :
    (insertByTime e l).Pairwise
      (fun a b => a.notification_time ≤ b.notification_time) := by
  induction l with
  | nil => simp [insertByTime]
  | cons x xs ih =>
    rcases List.pairwise_cons.mp h with ⟨hx, hxs⟩
    simp only [insertByTime]
    split
    · next hle =>
      refine List.pairwise_cons.mpr ⟨?_, h⟩
      intro b hb
      rcases List.mem_cons.mp hb with rfl | hb
      · exact hle
      · exact le_trans hle (hx b hb)
    · next hnle =>
      refine List.pairwise_cons.mpr ⟨?_, ih hxs⟩
      intro b hb
      rcases (mem_insertByTime e xs b).mp hb with rfl | hb
      · exact le_of_not_le hnle
      · exact hx b hb

/-- The sorted pending report is ascending in notification_time. -/
theorem sortByTime_pairwise (l : List PendingEntry) :
    (sortByTime l).Pairwise
      (fun a b => a.notification_time ≤ b.notification_time) := by
  induction l with
  | nil => simp [sortByTime]
  | cons x xs ih => exact insertByTime_pairwise x (sortByTime xs) ih

/-- Membership of one reminder's rows in the pending report. -/
theorem mem_pendingForReminder (now : Int) (log : Ledger) (r : Reminder)
    (e : PendingEntry) :
    e ∈ pendingForReminder now log r ↔
      (r.status = .pending ∨ r.status = .notified) ∧
      now ≤ r.event.datetime ∧
      ∃ m ∈ r.notification_settings.minutes_before,
        ledgerContains log (logKey r.id m) = false ∧
        e = pendingEntryFor now r m := by
  unfold pendingForReminder
  by_cases h1 : ¬ (r.status = .pending ∨ r.status = .notified)
  · rw [if_pos h1]
    simp [h1]
  · rw [if_neg h1]
    have h1x := not_not.mp h1
    by_cases h2 : r.event.datetime < now
    · rw [if_pos h2]
      simp [not_le.mpr h2]
    · rw [if_neg h2]
      simp only [List.mem_map, List.mem_filter]
      constructor
      · rintro ⟨m, ⟨hm, hfm⟩, he⟩
        refine ⟨h1x, le_of_not_lt h2, m, hm, ?_, he.symm⟩
        simpa using hfm
      · rintro ⟨_, _, m, hm, hf, he⟩
        exact ⟨m, ⟨hm, by simp [hf]⟩, he.symm⟩

/-- C8 (amended): get_pending_notifications returns, sorted ascending by the
computed notifyAt instant, exactly one row per (reminder, offset) pair whose
reminder has status pending or notified and a start time not strictly in the
past and whose key is absent from the ledger — including pairs that are not
yet due (their row carries is_due = false) and reminders whose email channel
is disabled, so the rows are a superset of, not equal to, the Evaluator's
due set. -/
theorem C8_pending_amended (now : Int) (store : Store) (log : Ledger) :
    (get_pending_notifications now store log).Pairwise
      (fun a b => a.notification_time ≤ b.notification_time) ∧
    ∀ e, e ∈ get_pending_notifications now store log ↔
      ∃ p ∈ store,
        (p.2.status = .pending ∨ p.2.status = .notified) ∧
        now ≤ p.2.event.datetime ∧
        ∃ m ∈ p.2.notification_settings.minutes_before,
          ledgerContains log (logKey p.2.id m) = false ∧
          e = pendingEntryFor now p.2 m := by
  constructor
  · exact sortByTime_pairwise _
  · intro e
    unfold get_pending_notifications
    rw [mem_sortByTime, List.mem_flatten]
    constructor
    · rintro ⟨l, hl, hel⟩
      obtain ⟨p, hp, rfl⟩ := List.mem_map.mp hl
      exact ⟨p, hp, (mem_pendingForReminder now log p.2 e).mp hel⟩
    · rintro ⟨p, hp, hrest⟩
      exact ⟨pendingForReminder now log p.2,
        List.mem_map_of_mem (fun q => pendingForReminder now log q.2) hp,
        (mem_pendingForReminder now log p.2 e).mpr hrest⟩

end ReminderApp
